import Mathlib

/-!
Verification of the rendition planning and manifest assembly engine of
video2hls (src/video2hls_lib.py).

Embedding conventions:

* Python machine integers are `ℤ`; integer lists are `List ℤ`.
* Python float arithmetic is modeled as exact rational arithmetic.  To keep
  every definition computable by the kernel (Mathlib `ℚ` operations do not
  reduce under `decide`), floats are embedded as unreduced numerator plus
  denominator pairs (`PyF`) with exact rational semantics; bridging lemmas
  relate them to `ℚ`.  The float literal `1.1` of the source is modeled as
  the exact rational 11/10.  For the integer magnitudes this program deals
  in (pixel widths, kilobit rates), the IEEE-754 double comparisons of the
  source agree with exact rational comparisons, since all compared
  quantities sit at distance at least 1/10 from each other while the double
  rounding error is below 1e-9.
* `int(x)` on a float is truncation toward zero (`pyInt`); `//` on ints is
  floor division (`Int.fdiv`).
* Fallible code (Python exceptions) is embedded with `Except String`; the
  message records which exception the source would raise.
* Mutation of the options object is embedded as functional update.
-/

deriving instance DecidableEq for Except

/-- Exact rational value as an unreduced numerator/denominator pair.
Models a Python float produced by true division or float multiplication. -/
structure PyF where
  num : ℤ
  den : ℤ
deriving DecidableEq, Repr

/-- Sign normalization: keep the denominator nonnegative. -/
def PyF.norm (q : PyF) : PyF :=
  if q.den < 0 then ⟨-q.num, -q.den⟩ else q

/-- Embed a Python int into a float (implicit int-to-float coercion). -/
def PyF.ofInt (z : ℤ) : PyF := ⟨z, 1⟩

/-- Exact product of two floats. -/
def PyF.mul (a b : PyF) : PyF := PyF.norm ⟨a.num * b.num, a.den * b.den⟩

/-- Exact true division of two floats (Python `/`). -/
def PyF.div (a b : PyF) : PyF := PyF.norm ⟨a.num * b.den, a.den * b.num⟩

/-- Exact comparison `a < b`.  Multiplying through by the square of both
denominators makes the test sign-correct for any nonzero denominators. -/
def PyF.blt (a b : PyF) : Bool :=
  a.num * a.den * (b.den * b.den) < b.num * b.den * (a.den * a.den)

/-- The exact rational value of a `PyF`. -/
noncomputable def PyF.val (q : PyF) : ℚ := (q.num : ℚ) / (q.den : ℚ)

/-- Python `int(x)` on a float: truncation toward zero. -/
def pyInt (q : PyF) : ℤ := Int.tdiv q.num q.den

/-- The float literal `1.1` of the source, as an exact rational. -/
def py1_1 : PyF := ⟨11, 10⟩

/-- Source `contained_in` (video2hls_lib.py lines 601-609): dimensions that
make the original video fit inside the target box.  `ratio` is a float; the
final `// 2 * 2` halves round both coordinates down to even ints. -/
def contained_in (original target : ℤ × ℤ) : ℤ × ℤ :=
  let ratio : PyF := PyF.div (PyF.ofInt original.1) (PyF.ofInt original.2)
  let width := target.1
  let height := target.2
  let wh : ℤ × ℤ :=
    if PyF.blt (PyF.ofInt height) (PyF.div (PyF.ofInt width) ratio) then
      (pyInt (PyF.mul (PyF.ofInt height) ratio), height)
    else
      (width, pyInt (PyF.div (PyF.ofInt width) ratio))
  (Int.fdiv wh.1 2 * 2, Int.fdiv wh.2 2 * 2)

/-- The `--ratio` option: a string before `fix_options` parses it, a float
afterwards (the source overwrites the field with a different type). -/
inductive RatioOpt where
  | str (s : String)
  | num (q : PyF)
deriving DecidableEq, Repr

/-- The value of a numeric ratio; `⟨0, 1⟩` is never read because every use
site is guarded by the same zero tests that guard Python division. -/
def RatioOpt.q : RatioOpt → PyF
  | .str _ => ⟨0, 1⟩
  | .num q => q

/-- The options namespace produced by argparse, restricted to the fields the
planning engine (fix_options, poster, transcode) reads or writes.  The source
field `hls_playlist_prefix` is called `hls_playlist_prefixes` here. -/
structure Opts where
  hls_playlist_prefixes : List String
  hls_segments : String
  hls_add_codecs : Bool
  audio_only : Bool
  audio_separate : Bool
  video_widths : List ℤ
  video_bitrates : List ℤ
  video_codecs : List String
  video_profiles : List String
  video_names : List String
  video_presets : List String
  video_bitrate_factor : PyF
  audio_bitrate : ℤ
  ratio : RatioOpt
  poster_width : Option ℤ
  poster_max_width : ℤ
  mp4_width : Option ℤ
  mp4_max_width : ℤ
  mp4_bitrate : Option PyF
  mp4_bitrate_factor : PyF
deriving DecidableEq, Repr

/-- Technical facts about the probed source video used by `fix_options`. -/
structure Tech where
  width : ℤ
  height : ℤ
deriving DecidableEq, Repr

/-- Python truthiness of an optional int option (None and 0 are falsy). -/
def optFalsy : Option ℤ → Bool
  | none => true
  | some v => v == 0

/-- Python truthiness of an optional float option (None and 0.0 are falsy). -/
def optFalsyF : Option PyF → Bool
  | none => true
  | some v => v.num == 0

/-- Step of fix_options, lines 614-616: default to a single empty playlist
prefix when none was supplied. -/
def prefixStep (o : Opts) : Opts :=
  if o.hls_playlist_prefixes = [] then { o with hls_playlist_prefixes := [""] } else o

/-- Step of fix_options, lines 618-620: audio-only or separate audio appends
a synthetic width of 0. -/
def audioWidthStep (o : Opts) : Opts :=
  if o.audio_only || o.audio_separate then
    { o with video_widths := o.video_widths ++ [0] } else o

/-- One vector of the alignment loop (lines 629-639, the generic case):
`del value[length:]` truncates, then the last element is repeated to reach
the canonical length.  `value[-1]` on an empty list raises IndexError. -/
def alignVec {α : Type} (L : ℕ) (v : List α) : Except String (List α) :=
  let t := v.take L
  if L ≤ t.length then .ok t
  else
    match t.getLast? with
    | some x => .ok (t ++ List.replicate (L - t.length) x)
    | none => .error "IndexError: list index out of range"

/-- Step of fix_options, lines 622-639: align every per-rendition vector to
the length of `video_widths`.  The dynamically discovered option list is
(widths, bitrates, codecs, profiles, names, presets); `video_names` is only
truncated, and `video_presets` is left empty when empty after truncation.
Truncating `video_widths` itself is the identity and is elided. -/
def alignStep (o : Opts) : Except String Opts := do
  let bs ← alignVec o.video_widths.length o.video_bitrates
  let cs ← alignVec o.video_widths.length o.video_codecs
  let ps ← alignVec o.video_widths.length o.video_profiles
  let pr ← (if o.video_presets.take o.video_widths.length = [] then
              pure (o.video_presets.take o.video_widths.length)
            else alignVec o.video_widths.length o.video_presets)
  pure { o with video_bitrates := bs, video_codecs := cs, video_profiles := ps,
                video_names := o.video_names.take o.video_widths.length,
                video_presets := pr }

/-- Step of fix_options, lines 641-644: zero the bitrate of every rendition
of width 0.  Written as zipWith; the two vectors have equal length here
because the alignment step just ran. -/
def zeroStep (o : Opts) : Opts :=
  { o with video_bitrates :=
      (List.zipWith (fun w b => if w = 0 then (0 : ℤ) else b)
        o.video_widths o.video_bitrates) }

/-- Parse one side of the W:H ratio text like Python `int(...)`: optional
sign, then decimal digits, with surrounding spaces allowed. -/
def pyParseInt (s : List Char) : Option ℤ :=
  let t := (((s.dropWhile (· = ' ')).reverse).dropWhile (· = ' ')).reverse
  let core : List Char × Bool :=
    match t with
    | '-' :: r => (r, true)
    | '+' :: r => (r, false)
    | r => (r, false)
  if core.1 ≠ [] ∧ core.1.all Char.isDigit = true then
    let n : ℕ := core.1.foldl (fun a c => 10 * a + (c.toNat - 48)) 0
    some (if core.2 then -(n : ℤ) else (n : ℤ))
  else none

/-- Step of fix_options, line 647: parse `ratio` as int:int and overwrite the
field with the resulting float.  The split is at the first colon.  A missing
colon makes `operator.truediv` fail with one argument; non-numeric parts fail
int(); a zero second part fails the division; a ratio that is already numeric
(a second normalization run) has no `.split` attribute. -/
def parseRatioStep (o : Opts) : Except String Opts :=
  match o.ratio with
  | .num _ => .error "AttributeError: float object has no attribute split"
  | .str s =>
    let a := s.data.takeWhile (· ≠ ':')
    match s.data.dropWhile (· ≠ ':') with
    | [] => .error "TypeError: truediv expected 2 arguments"
    | _ :: b =>
      match pyParseInt a, pyParseInt b with
      | some x, some y =>
        if y = 0 then .error "ZeroDivisionError: division by zero"
        else .ok { o with ratio := .num (PyF.div (PyF.ofInt x) (PyF.ofInt y)) }
      | _, _ => .error "ValueError: invalid literal for int"

/-- The `more` list built by fix_options lines 652-657: one synthesized
display name per rendition, `{h}p` from the scaled height for video
renditions, `Audio only` for zero-bitrate ones. -/
def synthNames (o : Opts) : List String :=
  List.zipWith
    (fun w b => if 0 < b then
        toString (pyInt (PyF.div (PyF.ofInt w) (RatioOpt.q o.ratio))) ++ "p"
      else "Audio only") o.video_widths o.video_bitrates

/-- Step of fix_options, lines 649-658: when fewer display names than
renditions were supplied, append the last `diff` synthesized entries
(`more[-diff:]`, which is `more` with the first `len(names)` dropped). -/
def namesStep (o : Opts) : Except String Opts :=
  let L := o.video_widths.length
  if o.video_names.length < L then
    if (RatioOpt.q o.ratio).num = 0 ∧ o.video_bitrates.any (fun b => decide (0 < b)) = true then
      .error "ZeroDivisionError: float division by zero"
    else
      .ok { o with video_names :=
        o.video_names ++ (synthNames o).drop o.video_names.length }
  else .ok o

/-- Step of fix_options, lines 660-665: scale every video bitrate (and a
user-supplied mp4 bitrate) by the global bitrate factor, truncating to int. -/
def factorStep (o : Opts) : Opts :=
  { o with
    video_bitrates :=
      o.video_bitrates.map (fun r => pyInt (PyF.mul (PyF.ofInt r) o.video_bitrate_factor)),
    mp4_bitrate :=
      match o.mp4_bitrate with
      | some b =>
        if b.num ≠ 0 then some (PyF.ofInt (pyInt (PyF.mul b o.video_bitrate_factor)))
        else some b
      | none => none }

/-- First conjunct of the pruning test (line 674): requested width strictly
above 1.1 times the source width. -/
def prunePredWide (w x : ℤ) : Bool :=
  PyF.blt (PyF.mul (PyF.ofInt w) py1_1) (PyF.ofInt x)

/-- Second conjunct of the pruning test (line 675): proportionally scaled
height `x*h/w` strictly above 1.1 times the source height. -/
def prunePredTall (w h x : ℤ) : Bool :=
  PyF.blt (PyF.mul (PyF.ofInt h) py1_1) (PyF.div (PyF.ofInt (x * h)) (PyF.ofInt w))

/-- The full pruning test of fix_options lines 674-676. -/
def prunePredB (w h x : ℤ) : Bool :=
  prunePredWide w x && prunePredTall w h x

/-- Delete index `n` from every per-rendition vector (lines 678-683); a
vector too short to have index `n` is left unchanged (the IndexError pass). -/
def eraseAllAt (n : ℕ) (o : Opts) : Opts :=
  { o with video_widths := o.video_widths.eraseIdx n,
           video_bitrates := o.video_bitrates.eraseIdx n,
           video_codecs := o.video_codecs.eraseIdx n,
           video_profiles := o.video_profiles.eraseIdx n,
           video_names := o.video_names.eraseIdx n,
           video_presets := o.video_presets.eraseIdx n }

/-- The pruning loop of lines 673-683: `for idx in reversed(range(n))`,
deleting oversize renditions from every vector.  Indices below the one under
examination are unaffected by deletions, so the value read at index `n` is
the original one; the `getD` default is never read for in-range calls. -/
def pruneAll (w h : ℤ) : ℕ → Opts → Opts
  | 0, o => o
  | n + 1, o =>
    pruneAll w h n
      (if prunePredB w h (o.video_widths.getD n 0) then eraseAllAt n o else o)

/-- Step of fix_options, lines 673-683, with the ZeroDivisionError the
source raises when the source width is 0 and some requested width is
positive (the second conjunct divides by the source width). -/
def pruneStep (o : Opts) (t : Tech) : Except String Opts :=
  if t.width = 0 ∧ o.video_widths.any (fun x => decide (0 < x)) = true then
    .error "ZeroDivisionError: division by zero"
  else .ok (pruneAll t.width t.height o.video_widths.length o)

/-- Maximum of a nonempty argument list (Python `max(a, b, ...)`). -/
def maxOf (a : ℤ) (l : List ℤ) : ℤ := l.foldl max a

/-- Step of fix_options, lines 684-690: derive the poster width.  The source
writes `max(*(w for w in widths if w <= poster_max_width))`: unpacking an
empty generator calls `max()` (TypeError), and unpacking a one-element
generator calls `max(x)` on an int, which is not iterable (TypeError too);
both fall back to the source video width. -/
def posterStep (o : Opts) (t : Tech) : Opts :=
  if optFalsy o.poster_width then
    match o.video_widths.filter (fun w => decide (w ≤ o.poster_max_width)) with
    | [] => { o with poster_width := some t.width }
    | [_] => { o with poster_width := some t.width }
    | a :: b :: r => { o with poster_width := some (maxOf a (b :: r)) }
  else o

/-- Step of fix_options, lines 692-698: derive the progressive MP4 width by
the same rule as the poster width, against `mp4_max_width`. -/
def mp4WidthStep (o : Opts) (t : Tech) : Opts :=
  if optFalsy o.mp4_width then
    match o.video_widths.filter (fun w => decide (w ≤ o.mp4_max_width)) with
    | [] => { o with mp4_width := some t.width }
    | [_] => { o with mp4_width := some t.width }
    | a :: b :: r => { o with mp4_width := some (maxOf a (b :: r)) }
  else o

/-- Step of fix_options, lines 699-706: derive the progressive MP4 bitrate
from the rendition whose width equals the MP4 width; `.index` failing is
caught and the first bitrate is used instead (without the int() truncation,
so the fallback stays a float), raising IndexError on an empty vector. -/
def mp4BitrateStep (o : Opts) : Except String Opts :=
  if optFalsyF o.mp4_bitrate then
    match o.video_widths.findIdx? (fun w => decide (w = o.mp4_width.getD 0)) with
    | some i =>
      .ok { o with mp4_bitrate :=
        (some (PyF.ofInt (pyInt (PyF.mul (PyF.ofInt (o.video_bitrates.getD i 0))
          o.mp4_bitrate_factor)))) }
    | none =>
      match o.video_bitrates with
      | [] => .error "IndexError: list index out of range"
      | b :: _ =>
        .ok { o with mp4_bitrate := some (PyF.mul (PyF.ofInt b) o.mp4_bitrate_factor) }
  else .ok o

/-- Source `fix_options` (video2hls_lib.py lines 612-706), as the ordered
composition of its steps. -/
def fix_options (o : Opts) (t : Tech) : Except String Opts := do
  let oa ← alignStep (audioWidthStep (prefixStep o))
  let ob ← parseRatioStep (zeroStep oa)
  let oc ← namesStep ob
  let od ← pruneStep (factorStep oc) t
  mp4BitrateStep (mp4WidthStep (posterStep od t) t)

/-- Leading space count of a line (`len(line) - len(line.lstrip(" "))`). -/
def indentOf (s : String) : ℕ := (s.data.takeWhile (· = ' ')).length

/-- Whether a line starts with `n` spaces (`line.startswith(" " * n)`). -/
def startsWithSpaces (s : String) (n : ℕ) : Bool :=
  (List.replicate n ' ').isPrefixOf s.data

/-- Contiguous substring test on char lists (Python `pat in line`). -/
def hasSubstr (hay pat : List Char) : Bool :=
  if pat.isPrefixOf hay then true
  else
    match hay with
    | [] => false
    | _ :: t => hasSubstr t pat

/-- Substring test on strings. -/
def hasSubstrStr (hay pat : String) : Bool := hasSubstr hay.data pat.data

/-- Python regex whitespace class, restricted to the characters that occur
in atom dump lines. -/
def isWS (c : Char) : Bool := c = ' ' ∨ c = '\t'

/-- Numeric value of a list of decimal digit characters. -/
def natOfDigits (l : List Char) : ℕ :=
  l.foldl (fun a c => 10 * a + (c.toNat - 48)) 0

/-- Tail of the attribute regex `.*: (?P<attribute>\S+) = (?P<value>\d+) .*`
applied right after a `: ` occurrence: a maximal nonempty run of non-space
characters, a literal ` = `, a maximal nonempty digit run, then a space.
Backtracking inside `\S+` or `\d+` cannot produce other matches because each
run is followed by a mandatory space. -/
def attrAt (cs : List Char) : Option (String × ℕ) :=
  let t := cs.takeWhile (fun c => !(isWS c))
  if t = [] then none
  else
    match cs.drop t.length with
    | ' ' :: '=' :: ' ' :: rest =>
      let d := rest.takeWhile Char.isDigit
      if d = [] then none
      else
        match rest.drop d.length with
        | ' ' :: _ => some (String.mk t, natOfDigits d)
        | _ => none
    | _ => none

/-- `attribute_re.match(line)`: the leading greedy `.*` selects the rightmost
`: ` occurrence from which the rest of the pattern matches, so later
occurrences are preferred. -/
def matchAttr : List Char → Option (String × ℕ)
  | [] => none
  | c :: rest =>
    match matchAttr rest with
    | some r => some r
    | none =>
      if c = ':' then
        match rest with
        | ' ' :: after => attrAt after
        | _ => none
      else none

/-- The atom path of the codec regex, with the unescaped regex dots mapped to
wildcards (`none` matches any character). -/
def codecPathPat : List (Option Char) :=
  "moov.trak.mdia.minf.stbl.stsd.".data.map (fun c => if c = '.' then none else some c)

/-- Match a literal-with-wildcards pattern and return the remainder. -/
def matchPat : List (Option Char) → List Char → Option (List Char)
  | [], cs => some cs
  | _ :: _, [] => none
  | p :: ps, c :: cs =>
    match p with
    | none => matchPat ps cs
    | some x => if c = x then matchPat ps cs else none

/-- Tail of the codec regex
`.*: type (?P<codec>\S+) \(moov.trak.mdia.minf.stbl.stsd.(?P=codec)\)`
applied right after a `: type ` occurrence: a maximal nonempty non-space run,
` (`, the atom path, the same run again (backreference), and `)`. -/
def codecAt (cs : List Char) : Option String :=
  let t := cs.takeWhile (fun c => !(isWS c))
  if t = [] then none
  else
    match cs.drop t.length with
    | ' ' :: '(' :: rest =>
      match matchPat codecPathPat rest with
      | some rest2 =>
        if t.isPrefixOf rest2 then
          match rest2.drop t.length with
          | ')' :: _ => some (String.mk t)
          | _ => none
        else none
      | none => none
    | _ => none

/-- `codec_re.match(line)`: rightmost `: type ` occurrence that completes the
pattern, as with `matchAttr`. -/
def matchCodec : List Char → Option String
  | [] => none
  | c :: rest =>
    match matchCodec rest with
    | some r => some r
    | none =>
      if c = ':' then
        match rest with
        | ' ' :: 't' :: 'y' :: 'p' :: 'e' :: ' ' :: after => codecAt after
        | _ => none
      else none

/-- Tail of the info regex `.*: info = <\d+ bytes>\s+(?P<byte>\d{2}) .*`
applied right after a `: ` occurrence: literal `info = <`, a digit run,
` bytes>`, at least one whitespace, exactly two digits, then a space.  The
two digits are read as hexadecimal by the caller (`int(..., 16)`). -/
def infoAt (cs : List Char) : Option ℕ :=
  match matchPat ("info = <".data.map some) cs with
  | none => none
  | some r1 =>
    let d := r1.takeWhile Char.isDigit
    if d = [] then none
    else
      match matchPat (" bytes>".data.map some) (r1.drop d.length) with
      | none => none
      | some r2 =>
        let w := r2.takeWhile isWS
        if w = [] then none
        else
          match r2.drop w.length with
          | a :: b :: ' ' :: _ =>
            if a.isDigit ∧ b.isDigit then
              some (16 * (a.toNat - 48) + (b.toNat - 48))
            else none
          | _ => none

/-- `info_re.match(line)`: rightmost matching `: ` occurrence. -/
def matchInfo : List Char → Option ℕ
  | [] => none
  | c :: rest =>
    match matchInfo rest with
    | some r => some r
    | none =>
      if c = ':' then
        match rest with
        | ' ' :: after => infoAt after
        | _ => none
      else none

/-- Helper for `dedupKeepFirst`: drop elements already seen. -/
def dedupAux (seen : List String) : List String → List String
  | [] => []
  | x :: xs => if x ∈ seen then dedupAux seen xs else x :: dedupAux (x :: seen) xs

/-- Deduplicate keeping first occurrences.  The source stores the discovered
codec types in a Python set, whose iteration order is unspecified; the
embedding fixes discovery order, which only affects the order of the joined
identifiers, not which identifiers exist or whether decoding fails. -/
def dedupKeepFirst (l : List String) : List String := dedupAux [] l

/-- Python `{n:02x}`: lowercase hexadecimal, zero-padded to two digits. -/
def hex2 (n : ℕ) : String :=
  let s := Nat.toDigits 16 n
  String.mk (List.replicate (2 - s.length) '0' ++ s)

/-- The avcC marker substring searched at line 547 of the source. -/
def avcCMarker : String := "(moov.trak.mdia.minf.stbl.stsd.avc1.avcC)"

/-- The esds marker substring searched at line 574 of the source. -/
def esdsMarker : String := "(moov.trak.mdia.minf.stbl.stsd.mp4a.esds)"

/-- The avcC scope of a header line: the following lines that start with at
least one more space than the header indentation (the inner loop of lines
553-564 breaks at the first line that does not). -/
def scopeAfter (hdr : String) (rest : List String) : List String :=
  rest.takeWhile (fun l => startsWithSpaces l (indentOf hdr + 1))

/-- The attribute scan of lines 550-564: remember the last value seen for
each of the three avcC attributes. -/
def avc1Scan (scope : List String) : Option ℕ × Option ℕ × Option ℕ :=
  scope.foldl
    (fun st line =>
      match matchAttr line.data with
      | none => st
      | some (a, v) =>
        if a = "AVCProfileIndication" then (some v, st.2.1, st.2.2)
        else if a = "profile_compatibility" then (st.1, some v, st.2.2)
        else if a = "AVCLevelIndication" then (st.1, st.2.1, some v)
        else st)
    (none, none, none)

/-- The avc1 branch of `extract_codecs` (lines 544-570): every line holding
the avcC marker opens a scope; all three attributes present formats an
identifier, anything missing raises. -/
def avc1Blocks : List String → Except String (List String)
  | [] => .ok []
  | l :: rest =>
    if hasSubstrStr l avcCMarker then
      match avc1Scan (scopeAfter l rest) with
      | (some p, some c, some lv) => do
        let rs ← avc1Blocks rest
        pure (("avc1." ++ hex2 p ++ hex2 c ++ hex2 lv) :: rs)
      | _ => .error "unable to decode AVC1 codec"
    else avc1Blocks rest

/-- State of the esds scan: the Python variable `osti` is None, Ellipsis
(waiting for the info line), or a decoded value. -/
inductive OstiState where
  | none
  | pending
  | val (n : ℕ)
deriving DecidableEq, Repr

/-- One line of the esds scan (lines 579-591): an `objectTypeId` attribute
sets `oti`; a line holding `decSpecificInfo` arms the info scan; with the
info scan armed, the next line must match the info regex or the source
raises; its first byte is read as hex and the top five bits kept. -/
def mp4aScanLine (st : Option ℕ × OstiState) (line : String) :
    Except String (Option ℕ × OstiState) :=
  let matched := matchAttr line.data
  match matched with
  | some (a, v) =>
    if a = "objectTypeId" then .ok (some v, st.2)
    else
      if hasSubstrStr line "decSpecificInfo" then .ok (st.1, .pending)
      else
        match st.2 with
        | .pending =>
          match matchInfo line.data with
          | some b => .ok (st.1, .val ((b &&& 0xF8) >>> 3))
          | none => .error "cannot decode specific info"
        | _ => .ok st
  | none =>
    if hasSubstrStr line "decSpecificInfo" then .ok (st.1, .pending)
    else
      match st.2 with
      | .pending =>
        match matchInfo line.data with
        | some b => .ok (st.1, .val ((b &&& 0xF8) >>> 3))
        | none => .error "cannot decode specific info"
      | _ => .ok st

/-- Fold of `mp4aScanLine` over the esds scope. -/
def mp4aScan : List String → (Option ℕ × OstiState) → Except String (Option ℕ × OstiState)
  | [], st => .ok st
  | l :: rest, st => do mp4aScan rest (← mp4aScanLine st l)

/-- The mp4a branch of `extract_codecs` (lines 571-597). -/
def mp4aBlocks : List String → Except String (List String)
  | [] => .ok []
  | l :: rest =>
    if hasSubstrStr l esdsMarker then do
      let st ← mp4aScan (scopeAfter l rest) (none, .none)
      match st with
      | (some oti, .val osti) => do
        let rs ← mp4aBlocks rest
        pure (("mp4a." ++ hex2 oti ++ "." ++ toString osti) :: rs)
      | (some oti, .pending) => do
        -- Python `all(x is not None ...)` counts a leftover Ellipsis as
        -- found and the f-string renders it as the text `Ellipsis`.
        let rs ← mp4aBlocks rest
        pure (("mp4a." ++ hex2 oti ++ "." ++ "Ellipsis") :: rs)
      | _ => .error "unable to decode MP4A codec"
    else mp4aBlocks rest

/-- Dispatch of the `for codec in codecs` loop body (lines 543-597). -/
def processCodec (lines : List String) (c : String) : Except String (List String) :=
  if c = "avc1" then avc1Blocks lines
  else if c = "mp4a" then mp4aBlocks lines
  else .ok []

/-- Fold collecting the identifier lists of every discovered codec type. -/
def processCodecs (lines : List String) : List String → Except String (List String)
  | [] => .ok []
  | c :: cs => do
    let r ← processCodec lines c
    let rs ← processCodecs lines cs
    pure (r ++ rs)

/-- Source `extract_codecs` (video2hls_lib.py lines 522-598) applied to the
lines of an atom dump: discover the sample-description codec types, decode
each supported type, and join the identifiers with commas. -/
def extract_codecs (lines : List String) : Except String String := do
  let cs := dedupKeepFirst (lines.filterMap (fun l => matchCodec l.data))
  let results ← processCodecs lines cs
  pure (String.intercalate "," results)

/-- Left brace character, written by code point to keep format strings and
patterns apart. -/
def lbChar : Char := Char.ofNat 123

/-- Right brace character. -/
def rbChar : Char := Char.ofNat 125

/-- Python `str.format` with keyword arguments, restricted to the feature
subset the segment patterns use: `\x7bkey\x7d` fields without conversion or
format spec, doubled braces as literals.  An unknown key is a KeyError and a
lone brace a ValueError, both mapped to `none`.  Recursion is on an explicit
fuel bounded by the pattern length. -/
def pyFormatAux (vars : List (String × String)) : ℕ → List Char → Option (List Char)
  | 0, l => if l = [] then some [] else none
  | _ + 1, [] => some []
  | fuel + 1, c :: rest =>
    if c = lbChar then
      match rest with
      | [] => none
      | d :: rest2 =>
        if d = lbChar then (pyFormatAux vars fuel rest2).map (lbChar :: ·)
        else
          let key := rest.takeWhile (fun e => e ≠ rbChar ∧ e ≠ lbChar)
          match rest.drop key.length with
          | e :: tail =>
            if e = rbChar then
              match vars.lookup (String.mk key) with
              | some v => (pyFormatAux vars fuel tail).map (v.data ++ ·)
              | none => none
            else none
          | [] => none
    else if c = rbChar then
      match rest with
      | d :: rest2 => if d = rbChar then (pyFormatAux vars fuel rest2).map (rbChar :: ·) else none
      | [] => none
    else (pyFormatAux vars fuel rest).map (c :: ·)

/-- Python `pattern.format(**vars)` over strings. -/
def pyFormat (pattern : String) (vars : List (String × String)) : Option String :=
  (pyFormatAux vars (pattern.data.length + 1) pattern.data).map String.mk

/-- Thousands grouping of a digit list processed in reverse order. -/
def commaGroupAux : List Char → ℕ → List Char
  | [], _ => []
  | c :: rest, n =>
    if n ≠ 0 ∧ n % 3 = 0 then c :: ',' :: commaGroupAux rest (n + 1)
    else c :: commaGroupAux rest (n + 1)

/-- Insert thousands separators into a decimal digit string. -/
def commaGroup (ds : List Char) : List Char := (commaGroupAux ds.reverse 0).reverse

/-- Round half to even, the rounding of Python float formatting. -/
def PyF.rhe (q : PyF) : ℤ :=
  let q := q.norm
  let n := Int.fdiv q.num q.den
  let r2 := 2 * (q.num - n * q.den)
  if r2 < q.den then n
  else if q.den < r2 then n + 1
  else if n % 2 = 0 then n else n + 1

/-- Zero-padded three decimal digits. -/
def pad3 (n : ℕ) : String :=
  let s := Nat.toDigits 10 n
  String.mk (List.replicate (3 - s.length) '0' ++ s)

/-- Python `f"\x7bx:,.3f\x7d"`: three decimals, round half to even,
thousands separators in the integer part.  Only ever applied to the positive
frame rate. -/
def fmtCommaF3 (q : PyF) : String :=
  let neg := PyF.blt q ⟨0, 1⟩
  let a : PyF := if neg then ⟨-q.num, q.den⟩ else q
  let m := (PyF.mul a ⟨1000, 1⟩).rhe
  let mn := m.toNat
  (if neg then "-" else "") ++
    String.mk (commaGroup (Nat.toDigits 10 (mn / 1000))) ++ "." ++ pad3 (mn % 1000)

/-- Double quote a string (the manifest writes attribute values quoted). -/
def quoteStr (s : String) : String := "\"" ++ s ++ "\""

/-- The per-rendition `voptions` dict of transcode lines 894-901, plus the
`index` keyword of line 1007, rendered as format arguments. -/
def voptionsFor (o : Opts) (idx : ℕ) : List (String × String) :=
  let w := o.video_widths.getD idx 0
  let resolution := pyInt (PyF.div (PyF.ofInt w) (RatioOpt.q o.ratio))
  [("width", toString w),
   ("resolution", toString resolution),
   ("bitrate", toString (o.video_bitrates.getD idx 0)),
   ("codec", o.video_codecs.getD idx ""),
   ("name", o.video_names.getD idx ""),
   ("profile", o.video_profiles.getD idx ""),
   ("index", toString idx)]

/-- Playlist name and resolution text recorded for rendition `idx` in the
transcode loop (lines 893, 902-904, 1006-1010): the media playlist filename
is the formatted segment pattern plus `.m3u8`, and the resolution text is
the fitted `WxH`. -/
def playlistFor (o : Opts) (t : Tech) (idx : ℕ) : Option (String × String) :=
  let w := o.video_widths.getD idx 0
  let resolution := pyInt (PyF.div (PyF.ofInt w) (RatioOpt.q o.ratio))
  let fit := contained_in (t.width, t.height) (w, resolution)
  (pyFormat o.hls_segments (voptionsFor o idx)).map
    (fun nm => (nm ++ ".m3u8", toString fit.1 ++ "x" ++ toString fit.2))

/-- The `playlists` dict of the transcode loop, keyed 0..n-1 in insertion
order.  A format failure (KeyError/ValueError) aborts transcode before any
playlist is written.  A zero parsed ratio would make the resolution division
raise, as in `namesStep`. -/
def buildPlaylists (o : Opts) (t : Tech) : Except String (List (String × String)) :=
  if (RatioOpt.q o.ratio).num = 0 ∧ o.video_widths ≠ [] then
    .error "ZeroDivisionError: float division by zero"
  else
    match (List.range o.video_widths.length).mapM (playlistFor o t) with
    | some l => .ok l
    | none => .error "KeyError or ValueError in segment pattern"

/-- Attempt of lines 1061-1065 for rendition `idx`: run `extract_codecs` on
the one-frame sample `_idx.mp4`.  The dump text is supplied as an oracle
function; `none` models FileNotFoundError (missing sample or missing
mp4file), and a decode failure is the RuntimeError of `extract_codecs`;
both are caught by the caller. -/
def codecAttempt (dumps : ℕ → Option (List String)) (idx : ℕ) : Except String String :=
  match dumps idx with
  | none => .error "FileNotFoundError"
  | some d => extract_codecs d

/-- One `#EXT-X-STREAM-INF` entry (lines 1070-1083) for one playlist prefix:
bandwidth in kbit/s times 1000, resolution and frame rate only for video
renditions, CODECS only when extraction succeeded with a nonempty string,
AUDIO only in separate-audio mode, then the NAME attribute and the
prefixed playlist URI line. -/
def streamInf (o : Opts) (audioPresent : Bool) (fps : PyF)
    (pl : String × String) (name : String) (bitrate : ℤ)
    (codecs : Option String) (pfx : String) : String :=
  let bandwidth := bitrate + (if audioPresent then o.audio_bitrate else 0)
  "#EXT-X-STREAM-INF:" ++ "BANDWIDTH=" ++ toString bandwidth ++ "000," ++
  (if 0 < bitrate then
    "RESOLUTION=" ++ pl.2 ++ "," ++ "FRAME-RATE=" ++ fmtCommaF3 fps ++ ","
   else "") ++
  (match codecs with
   | some c => if c = "" then "" else "CODECS=" ++ quoteStr c ++ ","
   | none => "") ++
  (if o.audio_separate then "AUDIO=" ++ quoteStr "audio" ++ "," else "") ++
  "NAME=" ++ quoteStr name ++ "\n" ++ pfx ++ pl.1 ++ "\n"

/-- The block written for one rendition: one `streamInf` entry per playlist
prefix (the inner loop of line 1069). -/
def entryBlock (o : Opts) (audioPresent : Bool) (fps : PyF)
    (playlists : List (String × String)) (idx : ℕ) (codecs : Option String) : String :=
  String.join ((Opts.hls_playlist_prefixes o).map
    (fun pfx => streamInf o audioPresent fps (playlists.getD idx ("", ""))
      (o.video_names.getD idx "") (o.video_bitrates.getD idx 0) codecs pfx))

/-- The per-rendition loop of lines 1054-1083.  The `no_codecs` flag starts
false and is set by the first failed codec extraction; while it is set no
further extraction is attempted.  A rendition with zero bitrate is skipped
unless an audio-only variant was requested. -/
def masterEntries (o : Opts) (audioPresent : Bool) (fps : PyF)
    (playlists : List (String × String)) (dumps : ℕ → Option (List String)) :
    List ℕ → Bool → List String
  | [], _ => []
  | idx :: rest, noCodecs =>
    if o.audio_only = false ∧ o.video_bitrates.getD idx 0 = 0 then
      masterEntries o audioPresent fps playlists dumps rest noCodecs
    else
      let att : Option String × Bool :=
        if noCodecs = false ∧ o.hls_add_codecs = true then
          match codecAttempt dumps idx with
          | .ok c => (some c, noCodecs)
          | .error _ => (none, true)
        else (none, noCodecs)
      entryBlock o audioPresent fps playlists idx att.1 ::
        masterEntries o audioPresent fps playlists dumps rest att.2

/-- Lines 1041-1053: the fixed header, and in separate-audio mode one
`#EXT-X-MEDIA` audio-group entry per playlist prefix pointing at the last
(audio-only) playlist. -/
def masterHeader (o : Opts) (playlists : List (String × String)) : String :=
  "#EXTM3U\n" ++
  (if o.audio_separate then
    "#EXT-X-VERSION:4\n" ++
    String.join ((Opts.hls_playlist_prefixes o).map (fun pfx =>
      "#EXT-X-MEDIA:TYPE=AUDIO,GROUP-ID=" ++ quoteStr "audio" ++
      ",DEFAULT=yes,AUTOSELECT=yes,URI=" ++ "\"" ++ pfx ++
      (playlists.getLastD ("", "")).1 ++ "\"" ++ "\n"))
   else "#EXT-X-VERSION:3\n")

/-- The master playlist text written by transcode lines 1040-1083, given the
per-rendition atom dump oracle. -/
def writeMaster (o : Opts) (audioPresent : Bool) (fps : PyF)
    (playlists : List (String × String)) (dumps : ℕ → Option (List String)) : String :=
  masterHeader o playlists ++
  String.join (masterEntries o audioPresent fps playlists dumps
    (List.range playlists.length) false)

/-- Master playlist generation from a normalized plan: build the playlist
names and resolutions of the transcode loop, then serialize. -/
def masterPlaylist (o : Opts) (t : Tech) (audioPresent : Bool) (fps : PyF)
    (dumps : ℕ → Option (List String)) : Except String String := do
  let pls ← buildPlaylists o t
  pure (writeMaster o audioPresent fps pls dumps)

/-- Split a character list at every separator (for counting manifest lines). -/
def splitCharsOn (sep : Char) : List Char → List (List Char)
  | [] => [[]]
  | c :: rest =>
    let r := splitCharsOn sep rest
    if c = sep then [] :: r
    else
      match r with
      | [] => [[c]]
      | h :: t => (c :: h) :: t

/-- The lines of a serialized manifest. -/
def splitLinesStr (s : String) : List String :=
  (splitCharsOn '\n' s.data).map String.mk

/-- String prefix test. -/
def startsWithStr (s p : String) : Bool := p.data.isPrefixOf s.data

/-- Truncate to length `L`, then repeat the last element to reach `L`: the
alignment policy described by the specification.  The default `d` is never
read when the vector is nonempty or `L = 0`. -/
def truncOrRepeatLast {α : Type} (L : ℕ) (d : α) (v : List α) : List α :=
  v.take L ++ List.replicate (L - v.length) (v.getLastD d)

/-- The pruning loop restricted to the width vector and one companion
vector, for reasoning about `pruneAll` one field at a time. -/
def prunePair {α : Type} (pb : ℤ → Bool) : ℕ → List ℤ → List α → List ℤ × List α
  | 0, ws, v => (ws, v)
  | n + 1, ws, v =>
    if pb (ws.getD n 0) then prunePair pb n (ws.eraseIdx n) (v.eraseIdx n)
    else prunePair pb n ws v

/-- The widths surviving the pruning test. -/
def pruneKeep (w h : ℤ) (ws : List ℤ) : List ℤ :=
  ws.filter (fun x => !prunePredB w h x)

/-- A companion vector after pruning: the entries paired with surviving
widths. -/
def pruneKeepPaired {α : Type} (w h : ℤ) (ws : List ℤ) (v : List α) : List α :=
  ((ws.zip v).filter (fun p => !prunePredB w h p.1)).map Prod.snd

/-- Whether the master playlist loop serializes rendition `i` (the negation
of the skip test at lines 1055-1058). -/
def renditionKept (o : Opts) (i : ℕ) : Bool :=
  !(!o.audio_only && (o.video_bitrates.getD i 0 == 0))

/-- The probed source dimensions used by the concrete examples. -/
def tech1080 : Tech := ⟨1920, 1080⟩

/-- Baseline options mirroring the argparse defaults of the source. -/
def exBase : Opts :=
  { hls_playlist_prefixes := []
    hls_segments := "{resolution}p_{index}"
    hls_add_codecs := true
    audio_only := false
    audio_separate := false
    video_widths := [3840, 2560, 1920, 1280, 854, 640, 428]
    video_bitrates := [14000, 6500, 4500, 2500, 1300, 800, 400]
    video_codecs := ["h264"]
    video_profiles := ["high@5.1", "high@5.1", "main@3.2", "main@3.1"]
    video_names := []
    video_presets := []
    video_bitrate_factor := ⟨1, 1⟩
    audio_bitrate := 96
    ratio := .str "16:9"
    poster_width := none
    poster_max_width := 1280
    mp4_width := none
    mp4_max_width := 1280
    mp4_bitrate := none
    mp4_bitrate_factor := ⟨8, 10⟩ }

/-- Input with a single requested width, of which exactly one (640) is at or
below both configured maxima. -/
def exC1 : Opts := { exBase with video_widths := [640], video_bitrates := [800] }

/-- Aligned options used to exercise the pruning step directly: source
1920x1080, requested widths 3840 (beyond tolerance), 2000 (marginally over)
and 2112 (exactly 1.1 times the source width). -/
def exPrune : Opts :=
  { exBase with
    video_widths := [3840, 2000, 2112]
    video_bitrates := [14000, 6500, 4500]
    video_codecs := ["h264", "h264", "h264"]
    video_profiles := ["high@5.1", "high@5.1", "main@3.2"]
    video_names := ["a", "b", "c"]
    video_presets := []
    ratio := .num ⟨16, 9⟩ }

/-- A synthetic avc1 atom dump with profile 100, constraints 0, level 31. -/
def exDumpAvc1 : List String :=
  ["  : type avc1 (moov.trak.mdia.minf.stbl.stsd.avc1)",
   "  : foo (moov.trak.mdia.minf.stbl.stsd.avc1.avcC)",
   "    : AVCProfileIndication = 100 (0x64)",
   "    : profile_compatibility = 0 (0x0)",
   "    : AVCLevelIndication = 31 (0x1f)"]

/-- The same dump with the level attribute missing from the avcC scope. -/
def exDumpAvc1Bad : List String :=
  ["  : type avc1 (moov.trak.mdia.minf.stbl.stsd.avc1)",
   "  : foo (moov.trak.mdia.minf.stbl.stsd.avc1.avcC)",
   "    : AVCProfileIndication = 100 (0x64)",
   "    : profile_compatibility = 0 (0x0)"]

/-- Options for the two-rendition failed-extraction scenario. -/
def exC8 : Opts :=
  { exBase with video_widths := [1280, 640], video_bitrates := [2500, 800] }

/-- Dump oracle for the two-rendition scenario: the sample of rendition 0
decodes, the sample of rendition 1 is missing. -/
def exC8dumps : ℕ → Option (List String) :=
  fun i => if i = 0 then some exDumpAvc1 else none

/-- Options for the single-rendition master playlist scenario. -/
def exC9 : Opts := { exBase with video_widths := [1280], video_bitrates := [2500] }

/-- Dump oracle with every sample missing. -/
def dumpsNone : ℕ → Option (List String) := fun _ => none

/-- Options demonstrating the audio-only zero-bitrate invariant. -/
def exC6 : Opts :=
  { exBase with audio_only := true, video_widths := [1280],
                video_bitrates := [2500, 999] }

/-- The normalized plan produced from `exBase` against a 1920x1080 source
(the two oversize widths pruned, vectors aligned, names synthesized,
poster/MP4 defaults derived). -/
def exNorm : Opts :=
  { hls_playlist_prefixes := [""]
    hls_segments := "{resolution}p_{index}"
    hls_add_codecs := true
    audio_only := false
    audio_separate := false
    video_widths := [1920, 1280, 854, 640, 428]
    video_bitrates := [4500, 2500, 1300, 800, 400]
    video_codecs := ["h264", "h264", "h264", "h264", "h264"]
    video_profiles := ["main@3.2", "main@3.1", "main@3.1", "main@3.1", "main@3.1"]
    video_names := ["1080p", "720p", "480p", "360p", "240p"]
    video_presets := []
    video_bitrate_factor := ⟨1, 1⟩
    audio_bitrate := 96
    ratio := .num ⟨16, 9⟩
    poster_width := some 1280
    poster_max_width := 1280
    mp4_width := some 1280
    mp4_max_width := 1280
    mp4_bitrate := some ⟨2000, 1⟩
    mp4_bitrate_factor := ⟨8, 10⟩ }

/-- The master playlist of the two-rendition scenario in which the second
sample is missing: the first entry keeps its CODECS attribute. -/
def exC8out : String :=
  "#EXTM3U\n#EXT-X-VERSION:3\n#EXT-X-STREAM-INF:BANDWIDTH=2500000,RESOLUTION=1280x720,FRAME-RATE=25.000,CODECS=\"avc1.64001f\",NAME=\"720p\"\n720p_0.m3u8\n#EXT-X-STREAM-INF:BANDWIDTH=800000,RESOLUTION=640x360,FRAME-RATE=25.000,NAME=\"360p\"\n360p_1.m3u8\n"

/-- The master playlist of the single-rendition scenario. -/
def exC9out : String :=
  "#EXTM3U\n#EXT-X-VERSION:3\n#EXT-X-STREAM-INF:BANDWIDTH=2500000,RESOLUTION=1280x720,FRAME-RATE=25.000,NAME=\"720p\"\n720p_0.m3u8\n"

/-- Its single stream-variant line. -/
def exC9line : String :=
  "#EXT-X-STREAM-INF:BANDWIDTH=2500000,RESOLUTION=1280x720,FRAME-RATE=25.000,NAME=\"720p\""

/-- The normalized plan produced from `exC6` against a 1920x1080 source:
the synthetic audio-only rendition gets width 0 and bitrate 0. -/
def exC6norm : Opts :=
  { hls_playlist_prefixes := [""]
    hls_segments := "{resolution}p_{index}"
    hls_add_codecs := true
    audio_only := true
    audio_separate := false
    video_widths := [1280, 0]
    video_bitrates := [2500, 0]
    video_codecs := ["h264", "h264"]
    video_profiles := ["high@5.1", "high@5.1"]
    video_names := ["720p", "Audio only"]
    video_presets := []
    video_bitrate_factor := ⟨1, 1⟩
    audio_bitrate := 96
    ratio := .num ⟨16, 9⟩
    poster_width := some 1280
    poster_max_width := 1280
    mp4_width := some 1280
    mp4_max_width := 1280
    mp4_bitrate := some ⟨2000, 1⟩
    mp4_bitrate_factor := ⟨8, 10⟩ }

/-- The wide test compares `110*w` with `100*x` exactly. -/
theorem prunePredWide_eq (w x : ℤ) :
    prunePredWide w x = decide (w * 11 * 10 * (1 * 1) < x * 1 * (10 * 10)) := by
  simp [prunePredWide, PyF.mul, PyF.ofInt, PyF.blt, PyF.norm, py1_1]

theorem prunePredWide_iff (w x : ℤ) :
    prunePredWide w x = true ↔ (w : ℚ) * (11 / 10) < (x : ℚ) := by
  rw [prunePredWide_eq, decide_eq_true_iff]
  constructor
  · intro h
    have h2 : 11 * w < 10 * x := by omega
    have h3 : 11 * (w : ℚ) < 10 * (x : ℚ) := by exact_mod_cast h2
    linarith
  · intro h
    have h2 : 11 * (w : ℚ) < 10 * (x : ℚ) := by linarith
    have h3 : 11 * w < 10 * x := by exact_mod_cast h2
    omega

/-- The tall test compares `110*h*w*w` with `100*x*h*w` exactly. -/
theorem prunePredTall_eq (w h x : ℤ) (hw : 0 < w) :
    prunePredTall w h x = decide (h * 11 * 10 * (w * w) < x * h * w * (10 * 10)) := by
  have hnn : ¬ ((1 : ℤ) * w < 0) := by omega
  have hnn2 : ¬ (w < 0) := by omega
  simp only [prunePredTall, PyF.mul, PyF.div, PyF.ofInt, PyF.blt, PyF.norm, py1_1]
  norm_num [hnn, hnn2]

/-- For positive source dimensions the tall test and the wide test are the
same Boolean function. -/
theorem prunePredTall_eq_wide (w h x : ℤ) (hw : 0 < w) (hh : 0 < h) :
    prunePredTall w h x = prunePredWide w x := by
  rw [prunePredTall_eq w h x hw, prunePredWide_eq]
  rw [decide_eq_decide]
  constructor
  · intro hp
    by_contra hq
    push_neg at hq
    have h1 : x * 1 * (10 * 10) ≤ w * 11 * 10 * (1 * 1) := hq
    have h2 : 100 * x ≤ 110 * w := by omega
    have h3 : (100 * x) * (h * w) ≤ (110 * w) * (h * w) :=
      mul_le_mul_of_nonneg_right h2 (le_of_lt (mul_pos hh hw))
    nlinarith
  · intro hq
    have h2 : 110 * w < 100 * x := by omega
    have h3 : (110 * w) * (h * w) < (100 * x) * (h * w) :=
      mul_lt_mul_of_pos_right h2 (mul_pos hh hw)
    nlinarith

/-- C10: over exact rational arithmetic the pruning conjunction collapses to
its width conjunct; a rendition is pruned exactly when its requested width
exceeds 1.1 times the source width. -/
theorem prune_pred_width_only (w h x : ℤ) (hw : 0 < w) (hh : 0 < h) :
    prunePredB w h x = prunePredWide w x ∧
    (prunePredB w h x = true ↔ (w : ℚ) * (11 / 10) < (x : ℚ)) := by
  have hfold : prunePredB w h x = prunePredWide w x := by
    unfold prunePredB
    rw [prunePredTall_eq_wide w h x hw hh, Bool.and_self]
  exact ⟨hfold, by rw [hfold, prunePredWide_iff]⟩

theorem prune_pred_width_only_witness :
    ((0 : ℤ) < 1920 ∧ (0 : ℤ) < 1080) ∧
    prunePredB 1920 1080 3840 = prunePredWide 1920 3840 ∧
    prunePredB 1920 1080 3840 = true ∧ prunePredB 1920 1080 2112 = false := by
  refine ⟨by decide, (prune_pred_width_only 1920 1080 3840 (by decide) (by decide)).1, by decide, by decide⟩

/-- Computation of `contained_in` under positive source dimensions, with the
float comparisons reduced to integer ones. -/
theorem contained_in_eval (w h W H : ℤ) (hw : 0 < w) (hh : 0 < h) :
    contained_in (w, h) (W, H) =
      if H * (w * w) < W * h * w then
        (((H * w).tdiv h).fdiv 2 * 2, H.fdiv 2 * 2)
      else
        (W.fdiv 2 * 2, ((W * h).tdiv w).fdiv 2 * 2) := by
  have h1 : ¬ ((1 : ℤ) * h < 0) := by omega
  have h2 : ¬ ((1 : ℤ) * w < 0) := by omega
  have h3 : ¬ (h < 0) := by omega
  have h4 : ¬ (w < 0) := by omega
  simp only [contained_in, PyF.div, PyF.mul, PyF.ofInt, PyF.blt, PyF.norm, pyInt]
  norm_num [h1, h2, h3, h4]
  split_ifs <;> rfl

/-- C4: the geometry fitter fits in the box, returns even dimensions,
dominates every even exact-ratio pair that fits (area maximality), and
preserves the aspect ratio up to the rounding slack of two pixels. -/
theorem contained_in_spec (w h W H : ℤ) (hw : 0 < w) (hh : 0 < h)
    (hW : 0 < W) (hH : 0 < H) :
    (contained_in (w, h) (W, H)).1 ≤ W ∧
    (contained_in (w, h) (W, H)).2 ≤ H ∧
    (contained_in (w, h) (W, H)).1 % 2 = 0 ∧
    (contained_in (w, h) (W, H)).2 % 2 = 0 ∧
    (∀ a b : ℤ, a ≤ W → b ≤ H → a % 2 = 0 → b % 2 = 0 → a * h = b * w →
      a ≤ (contained_in (w, h) (W, H)).1 ∧ b ≤ (contained_in (w, h) (W, H)).2) ∧
    (contained_in (w, h) (W, H)).1 * h < ((contained_in (w, h) (W, H)).2 + 2) * w ∧
    (contained_in (w, h) (W, H)).2 * w < ((contained_in (w, h) (W, H)).1 + 2) * h := by
  rw [contained_in_eval w h W H hw hh]
  by_cases hc : H * (w * w) < W * h * w
  · rw [if_pos hc]
    have hWh : H * w < W * h := by
      have := lt_of_mul_lt_mul_right (by nlinarith : (H * w) * w < (W * h) * w) hw.le
      exact this
    have htd : (H * w).tdiv h = (H * w) / h :=
      Int.tdiv_eq_ediv (by positivity) hh.le
    have hfd : ∀ x : ℤ, x.fdiv 2 = x / 2 := fun x => Int.fdiv_eq_ediv x (by norm_num)
    rw [htd, hfd, hfd]
    dsimp only
    set a0 := (H * w) / h with ha0
    have hdm : h * a0 + (H * w) % h = H * w := Int.ediv_add_emod (H * w) h
    have hr0 : 0 ≤ (H * w) % h := Int.emod_nonneg _ (ne_of_gt hh)
    have hrh : (H * w) % h < h := Int.emod_lt_of_pos _ hh
    have ha0W : a0 < W := by
      have h5 : h * a0 < h * W := by nlinarith
      exact lt_of_mul_lt_mul_left h5 hh.le
    refine ⟨by omega, by omega, by omega, by omega, ?_, ?_, ?_⟩
    · intro a b haW hbH hae hbe hab
      have hbw : b * w ≤ H * w := mul_le_mul_of_nonneg_right hbH hw.le
      have hah : a * h ≤ H * w := by omega
      have haa0 : a < a0 + 1 := by
        have h6 : a * h < (a0 + 1) * h := by nlinarith
        exact lt_of_mul_lt_mul_right h6 hh.le
      constructor
      · omega
      · omega
    · have e1 : (a0 / 2 * 2) * h ≤ a0 * h := by
        have : a0 / 2 * 2 ≤ a0 := by omega
        exact mul_le_mul_of_nonneg_right this hh.le
      have e2 : a0 * h ≤ H * w := by nlinarith
      have e3 : (H + 1) * w ≤ ((H / 2 * 2) + 2) * w := by
        have : H + 1 ≤ H / 2 * 2 + 2 := by omega
        exact mul_le_mul_of_nonneg_right this hw.le
      nlinarith
    · have e1 : (H / 2 * 2) * w ≤ H * w := by
        have : H / 2 * 2 ≤ H := by omega
        exact mul_le_mul_of_nonneg_right this hw.le
      have e2 : H * w < (a0 + 1) * h := by nlinarith
      have e3 : (a0 + 1) * h ≤ ((a0 / 2 * 2) + 2) * h := by
        have : a0 + 1 ≤ a0 / 2 * 2 + 2 := by omega
        exact mul_le_mul_of_nonneg_right this hh.le
      linarith
  · rw [if_neg hc]
    push_neg at hc
    have hWh : W * h ≤ H * w := by
      have := le_of_mul_le_mul_right (by nlinarith : (W * h) * w ≤ (H * w) * w) hw
      exact this
    have htd : (W * h).tdiv w = (W * h) / w :=
      Int.tdiv_eq_ediv (by positivity) hw.le
    have hfd : ∀ x : ℤ, x.fdiv 2 = x / 2 := fun x => Int.fdiv_eq_ediv x (by norm_num)
    rw [htd, hfd, hfd]
    dsimp only
    set b0 := (W * h) / w with hb0
    have hdm : w * b0 + (W * h) % w = W * h := Int.ediv_add_emod (W * h) w
    have hr0 : 0 ≤ (W * h) % w := Int.emod_nonneg _ (ne_of_gt hw)
    have hrw : (W * h) % w < w := Int.emod_lt_of_pos _ hw
    have hb0H : b0 ≤ H := by
      have h5 : w * b0 ≤ w * H := by nlinarith
      exact le_of_mul_le_mul_left h5 hw
    refine ⟨by omega, by omega, by omega, by omega, ?_, ?_, ?_⟩
    · intro a b haW hbH hae hbe hab
      have hahW : a * h ≤ W * h := mul_le_mul_of_nonneg_right haW hh.le
      have hbw : b * w ≤ W * h := by omega
      have hbb0 : b < b0 + 1 := by
        have h6 : b * w < (b0 + 1) * w := by nlinarith
        exact lt_of_mul_lt_mul_right h6 hw.le
      exact ⟨by omega, by omega⟩
    · have e1 : (W / 2 * 2) * h ≤ W * h := by
        have : W / 2 * 2 ≤ W := by omega
        exact mul_le_mul_of_nonneg_right this hh.le
      have e2 : W * h < (b0 + 1) * w := by nlinarith
      have e3 : (b0 + 1) * w ≤ ((b0 / 2 * 2) + 2) * w := by
        have : b0 + 1 ≤ b0 / 2 * 2 + 2 := by omega
        exact mul_le_mul_of_nonneg_right this hw.le
      linarith
    · have e1 : (b0 / 2 * 2) * w ≤ b0 * w := by
        have : b0 / 2 * 2 ≤ b0 := by omega
        exact mul_le_mul_of_nonneg_right this hw.le
      have e2 : b0 * w ≤ W * h := by nlinarith
      have e3 : (W + 1) * h ≤ ((W / 2 * 2) + 2) * h := by
        have : W + 1 ≤ W / 2 * 2 + 2 := by omega
        exact mul_le_mul_of_nonneg_right this hh.le
      nlinarith

/-- Erasing the same index from paired lists commutes with zipping. -/
theorem zip_eraseIdx {α : Type} :
    ∀ (n : ℕ) (ws : List ℤ) (v : List α),
      (ws.eraseIdx n).zip (v.eraseIdx n) = (ws.zip v).eraseIdx n := by
  intro n
  induction n with
  | zero =>
    intro ws v
    cases ws <;> cases v <;> simp
  | succ n ih =>
    intro ws v
    cases ws with
    | nil => simp
    | cons a ws' =>
      cases v with
      | nil => simp
      | cons b v' =>
        rw [List.eraseIdx_cons_succ, List.eraseIdx_cons_succ, List.zip_cons_cons,
            List.zip_cons_cons, List.eraseIdx_cons_succ, ih]

/-- The pruning loop on a width vector and one equally long companion: the
result is the filtered width vector paired with its surviving companions. -/
theorem prunePair_eq {α : Type} (pb : ℤ → Bool) :
    ∀ (n : ℕ) (ws : List ℤ) (v : List α), n ≤ ws.length → v.length = ws.length →
      prunePair pb n ws v =
        ((ws.take n).filter (fun x => !pb x) ++ ws.drop n,
         (((ws.zip v).take n).filter (fun p => !pb p.1)).map Prod.snd ++ v.drop n) := by
  intro n
  induction n with
  | zero =>
    intro ws v _ _
    simp [prunePair]
  | succ n ih =>
    intro ws v hn hv
    have hlt : n < ws.length := by omega
    have hltv : n < v.length := by omega
    have hgd : ws.getD n 0 = ws[n] := by
      rw [List.getD_eq_getElem?_getD, List.getElem?_eq_getElem hlt]
      rfl
    have hzlen : (ws.zip v).length = ws.length := by
      rw [List.length_zip]; omega
    have hzlt : n < (ws.zip v).length := by omega
    rw [prunePair, hgd]
    by_cases hp : pb ws[n]
    · rw [if_pos hp]
      have hle : (ws.eraseIdx n).length = ws.length - 1 := by
        rw [List.length_eraseIdx, if_pos hlt]
      have hlev : (v.eraseIdx n).length = v.length - 1 := by
        rw [List.length_eraseIdx, if_pos hltv]
      rw [ih (ws.eraseIdx n) (v.eraseIdx n) (by omega) (by omega)]
      rw [zip_eraseIdx]
      rw [List.eraseIdx_eq_take_drop_succ ws n, List.eraseIdx_eq_take_drop_succ v n,
          List.eraseIdx_eq_take_drop_succ (ws.zip v) n]
      have ht1 : (List.take n ws).length = n := by rw [List.length_take]; omega
      have ht2 : (List.take n v).length = n := by rw [List.length_take]; omega
      have ht3 : (List.take n (ws.zip v)).length = n := by rw [List.length_take]; omega
      rw [List.take_left' ht1, List.drop_left' ht1, List.drop_left' ht2, List.take_left' ht3]
      have htk : List.take (n + 1) ws = List.take n ws ++ [ws[n]] := by
        rw [List.take_succ, List.getElem?_eq_getElem hlt]; rfl
      have htkz : List.take (n + 1) (ws.zip v) = List.take n (ws.zip v) ++ [(ws[n], v[n])] := by
        rw [List.take_succ, List.getElem?_eq_getElem hzlt, List.getElem_zip]; rfl
      rw [htk, htkz, List.filter_append, List.filter_append]
      simp [hp]
    · rw [if_neg hp]
      rw [ih ws v (by omega) hv]
      have htk : List.take (n + 1) ws = List.take n ws ++ [ws[n]] := by
        rw [List.take_succ, List.getElem?_eq_getElem hlt]; rfl
      have htkz : List.take (n + 1) (ws.zip v) = List.take n (ws.zip v) ++ [(ws[n], v[n])] := by
        rw [List.take_succ, List.getElem?_eq_getElem hzlt, List.getElem_zip]; rfl
      rw [htk, htkz, List.filter_append, List.filter_append,
          List.drop_eq_getElem_cons hlt, List.drop_eq_getElem_cons hltv]
      simp [hp]

/-- The pruning loop acts on every vector of the options record as the
paired loop does: widths filtered, companions erased at the same indices. -/
theorem pruneAll_eq (w h : ℤ) :
    ∀ (n : ℕ) (o : Opts),
      pruneAll w h n o =
        { o with
          video_widths := (prunePair (prunePredB w h) n o.video_widths o.video_bitrates).1,
          video_bitrates := (prunePair (prunePredB w h) n o.video_widths o.video_bitrates).2,
          video_codecs := (prunePair (prunePredB w h) n o.video_widths o.video_codecs).2,
          video_profiles := (prunePair (prunePredB w h) n o.video_widths o.video_profiles).2,
          video_names := (prunePair (prunePredB w h) n o.video_widths o.video_names).2,
          video_presets := (prunePair (prunePredB w h) n o.video_widths o.video_presets).2 } := by
  intro n
  induction n with
  | zero => intro o; rfl
  | succ n ih =>
    intro o
    rw [pruneAll]
    by_cases hp : prunePredB w h (o.video_widths.getD n 0) = true
    · have e : ∀ (β : Type) (v : List β),
          prunePair (prunePredB w h) (n + 1) o.video_widths v =
            prunePair (prunePredB w h) n (o.video_widths.eraseIdx n) (v.eraseIdx n) := by
        intro β v
        rw [prunePair, if_pos hp]
      rw [if_pos hp, ih (eraseAllAt n o),
          e _ o.video_bitrates, e _ o.video_codecs, e _ o.video_profiles,
          e _ o.video_names, e _ o.video_presets]
      rfl
    · have e : ∀ (β : Type) (v : List β),
          prunePair (prunePredB w h) (n + 1) o.video_widths v =
            prunePair (prunePredB w h) n o.video_widths v := by
        intro β v
        rw [prunePair, if_neg hp]
      rw [if_neg hp, ih o,
          e _ o.video_bitrates, e _ o.video_codecs, e _ o.video_profiles,
          e _ o.video_names, e _ o.video_presets]

/-- The paired pruning loop leaves an empty companion empty. -/
theorem prunePair_nil {α : Type} (pb : ℤ → Bool) :
    ∀ (n : ℕ) (ws : List ℤ), (prunePair pb n ws ([] : List α)).2 = [] := by
  intro n
  induction n with
  | zero => intro ws; rfl
  | succ n ih =>
    intro ws
    rw [prunePair]
    by_cases hp : pb (ws.getD n 0) = true
    · rw [if_pos hp, List.eraseIdx_nil]
      exact ih _
    · rw [if_neg hp]
      exact ih _

/-- The full-length paired loop produces the filtered widths and the paired
surviving companions. -/
theorem prunePair_full {α : Type} (w h : ℤ) (ws : List ℤ) (v : List α)
    (hv : v.length = ws.length) :
    prunePair (prunePredB w h) ws.length ws v =
      (pruneKeep w h ws, pruneKeepPaired w h ws v) := by
  rw [prunePair_eq (prunePredB w h) ws.length ws v (le_refl _) hv]
  unfold pruneKeep pruneKeepPaired
  congr 1
  · rw [List.take_length, List.drop_length, List.append_nil]
  · have h1 : (ws.zip v).take ws.length = ws.zip v :=
      List.take_of_length_le (by rw [List.length_zip]; omega)
    have h2 : v.drop ws.length = [] := by
      rw [← hv]; exact List.drop_length v
    rw [h1, h2, List.append_nil]

/-- C2: the pruning step deletes exactly the renditions whose width fails
the tolerance test, from every per-rendition vector, keeping the surviving
entries in order (the downward iteration makes the loop equivalent to a
filter). -/
theorem prune_step_filter (o : Opts) (t : Tech)
    (hb : o.video_bitrates.length = o.video_widths.length)
    (hc : o.video_codecs.length = o.video_widths.length)
    (hp : o.video_profiles.length = o.video_widths.length)
    (hn : o.video_names.length = o.video_widths.length)
    (hpre : o.video_presets = [] ∨ o.video_presets.length = o.video_widths.length)
    (hz : ¬ (t.width = 0 ∧ o.video_widths.any (fun x => decide (0 < x)) = true)) :
    pruneStep o t = .ok
      { o with
        video_widths := pruneKeep t.width t.height o.video_widths,
        video_bitrates := pruneKeepPaired t.width t.height o.video_widths o.video_bitrates,
        video_codecs := pruneKeepPaired t.width t.height o.video_widths o.video_codecs,
        video_profiles := pruneKeepPaired t.width t.height o.video_widths o.video_profiles,
        video_names := pruneKeepPaired t.width t.height o.video_widths o.video_names,
        video_presets :=
          (if o.video_presets = [] then []
           else pruneKeepPaired t.width t.height o.video_widths o.video_presets) } := by
  unfold pruneStep
  rw [if_neg hz]
  congr 1
  rw [pruneAll_eq]
  rw [prunePair_full t.width t.height o.video_widths o.video_bitrates hb,
      prunePair_full t.width t.height o.video_widths o.video_codecs hc,
      prunePair_full t.width t.height o.video_widths o.video_profiles hp,
      prunePair_full t.width t.height o.video_widths o.video_names hn]
  rcases hpre with hpe | hpl
  · rw [if_pos hpe, hpe, prunePair_nil]
  · by_cases hpe : o.video_presets = []
    · rw [if_pos hpe, hpe, prunePair_nil]
    · rw [if_neg hpe, prunePair_full t.width t.height o.video_widths o.video_presets hpl]

/-- Witness for C2 at source 1920x1080: the requested width 3840 is pruned
while 2000 and the boundary width 2112 (exactly 1.1 times the source) are
retained, in every vector. -/
theorem prune_step_filter_witness :
    pruneStep exPrune tech1080 = .ok
      { exPrune with
        video_widths := pruneKeep 1920 1080 exPrune.video_widths,
        video_bitrates := pruneKeepPaired 1920 1080 exPrune.video_widths exPrune.video_bitrates,
        video_codecs := pruneKeepPaired 1920 1080 exPrune.video_widths exPrune.video_codecs,
        video_profiles := pruneKeepPaired 1920 1080 exPrune.video_widths exPrune.video_profiles,
        video_names := pruneKeepPaired 1920 1080 exPrune.video_widths exPrune.video_names,
        video_presets := [] } ∧
    pruneKeep 1920 1080 exPrune.video_widths = [2000, 2112] ∧
    pruneKeepPaired 1920 1080 exPrune.video_widths exPrune.video_names = ["b", "c"] ∧
    prunePredB 1920 1080 3840 = true ∧ prunePredB 1920 1080 2000 = false ∧
    prunePredB 1920 1080 2112 = false := by
  refine ⟨?_, by decide, by decide, by decide, by decide, by decide⟩
  have h := prune_step_filter exPrune tech1080 (by decide) (by decide) (by decide)
    (by decide) (Or.inl (by decide)) (by decide)
  rw [h]
  rfl

/-- Whatever `alignVec` returns successfully is the truncate-and-repeat-last
transformation. -/
theorem alignVec_ok_elim {α : Type} (L : ℕ) (d : α) (v r : List α)
    (h : alignVec L v = .ok r) : r = truncOrRepeatLast L d v := by
  unfold alignVec at h
  by_cases hL : L ≤ (v.take L).length
  · rw [if_pos hL] at h
    injection h with h
    rw [List.length_take, le_min_iff] at hL
    have hvL : L ≤ v.length := hL.2
    unfold truncOrRepeatLast
    rw [show L - v.length = 0 from by omega]
    simp [← h]
  · rw [if_neg hL] at h
    rw [List.length_take] at hL
    push_neg at hL
    have hvL : v.length < L := by
      rcases min_lt_iff.mp hL with h1 | h1
      · exact absurd h1 (lt_irrefl L)
      · exact h1
    have htk : v.take L = v := List.take_of_length_le (by omega)
    rw [htk] at h
    cases hgl : v.getLast? with
    | none => rw [hgl] at h; exact absurd h (by simp)
    | some x =>
      rw [hgl] at h
      injection h with h
      unfold truncOrRepeatLast
      rw [htk, ← h]
      have : v.getLastD d = x := by
        rw [List.getLastD_eq_getLast?, hgl]
        rfl
      rw [this]

/-- The truncate-and-repeat-last transformation always has the canonical
length. -/
theorem truncOrRepeatLast_length {α : Type} (L : ℕ) (d : α) (v : List α) :
    (truncOrRepeatLast L d v).length = L := by
  unfold truncOrRepeatLast
  rw [List.length_append, List.length_take, List.length_replicate]
  omega

/-- Successful alignment rewrites the options record as truncation plus
last-element repetition on bitrates, codecs and profiles, plain truncation
on names, and nothing on an empty (truncated) presets vector. -/
theorem alignStep_ok_elim (o oa : Opts) (hok : alignStep o = .ok oa) :
    oa = { o with
      video_bitrates := truncOrRepeatLast o.video_widths.length 0 o.video_bitrates,
      video_codecs := truncOrRepeatLast o.video_widths.length "" o.video_codecs,
      video_profiles := truncOrRepeatLast o.video_widths.length "" o.video_profiles,
      video_names := o.video_names.take o.video_widths.length,
      video_presets :=
        (if o.video_presets.take o.video_widths.length = [] then []
         else truncOrRepeatLast o.video_widths.length "" o.video_presets) } := by
  unfold alignStep at hok
  cases hbs : alignVec o.video_widths.length o.video_bitrates with
  | error e => rw [hbs] at hok; exact absurd hok (by simp [Bind.bind, Except.bind])
  | ok bs =>
    rw [hbs] at hok
    cases hcs : alignVec o.video_widths.length o.video_codecs with
    | error e => rw [hcs] at hok; exact absurd hok (by simp [Bind.bind, Except.bind])
    | ok cs =>
      rw [hcs] at hok
      cases hps : alignVec o.video_widths.length o.video_profiles with
      | error e => rw [hps] at hok; exact absurd hok (by simp [Bind.bind, Except.bind])
      | ok ps =>
        rw [hps] at hok
        by_cases hpe : o.video_presets.take o.video_widths.length = []
        · rw [if_pos hpe] at hok
          simp only [Bind.bind, Except.bind, pure, Except.pure] at hok
          injection hok with hok
          rw [if_pos hpe, ← hok, hpe]
          rw [alignVec_ok_elim _ (0 : ℤ) _ _ hbs,
              alignVec_ok_elim _ ("" : String) _ _ hcs,
              alignVec_ok_elim _ ("" : String) _ _ hps]
        · rw [if_neg hpe] at hok
          cases hpr : alignVec o.video_widths.length o.video_presets with
          | error e => rw [hpr] at hok; exact absurd hok (by simp [Bind.bind, Except.bind])
          | ok pr =>
            rw [hpr] at hok
            simp only [Bind.bind, Except.bind, pure, Except.pure] at hok
            injection hok with hok
            rw [if_neg hpe, ← hok]
            rw [alignVec_ok_elim _ (0 : ℤ) _ _ hbs,
                alignVec_ok_elim _ ("" : String) _ _ hcs,
                alignVec_ok_elim _ ("" : String) _ _ hps,
                alignVec_ok_elim _ ("" : String) _ _ hpr]

/-- The six per-rendition vectors of an options record, for stating that a
step leaves all of them unchanged. -/
def vecs (o : Opts) :
    List ℤ × List ℤ × List String × List String × List String × List String :=
  (o.video_widths, o.video_bitrates, o.video_codecs, o.video_profiles,
   o.video_names, o.video_presets)

/-- Ratio parsing only rewrites the ratio field. -/
theorem parseRatioStep_ok_elim (x y : Opts) (h : parseRatioStep x = .ok y) :
    ∃ q, y = { x with ratio := .num q } := by
  unfold parseRatioStep at h
  cases hr : x.ratio with
  | num q => rw [hr] at h; exact absurd h (by simp)
  | str s =>
    rw [hr] at h
    dsimp only at h
    cases hd : s.data.dropWhile (· ≠ ':') with
    | nil => rw [hd] at h; exact absurd h (by simp)
    | cons c b =>
      rw [hd] at h
      cases hpa : pyParseInt (s.data.takeWhile (· ≠ ':')) with
      | none => rw [hpa] at h; exact absurd h (by simp)
      | some xv =>
        rw [hpa] at h
        dsimp only at h
        cases hpb : pyParseInt b with
        | none => rw [hpb] at h; exact absurd h (by simp)
        | some yv =>
          rw [hpb] at h
          dsimp only at h
          by_cases hy : yv = 0
          · rw [if_pos hy] at h; exact absurd h (by simp)
          · rw [if_neg hy] at h
            injection h with h
            exact ⟨_, h.symm⟩

/-- The names step either appends the synthesized tail or, when enough names
were supplied, changes nothing. -/
theorem namesStep_ok_elim (x y : Opts) (h : namesStep x = .ok y) :
    y = { x with video_names :=
            x.video_names ++ (synthNames x).drop x.video_names.length } ∨
      (x.video_widths.length ≤ x.video_names.length ∧ y = x) := by
  unfold namesStep at h
  by_cases hl : x.video_names.length < x.video_widths.length
  · rw [if_pos hl] at h
    by_cases hz : (RatioOpt.q x.ratio).num = 0 ∧
        x.video_bitrates.any (fun b => decide (0 < b)) = true
    · rw [if_pos hz] at h; exact absurd h (by simp)
    · rw [if_neg hz] at h
      injection h with h
      exact Or.inl h.symm
  · rw [if_neg hl] at h
    injection h with h
    exact Or.inr ⟨by omega, h.symm⟩

/-- The poster step only writes the poster width. -/
theorem posterStep_vecs (o : Opts) (t : Tech) : vecs (posterStep o t) = vecs o := by
  unfold posterStep
  split
  · split <;> rfl
  · rfl

/-- The MP4 width step only writes the MP4 width. -/
theorem mp4WidthStep_vecs (o : Opts) (t : Tech) : vecs (mp4WidthStep o t) = vecs o := by
  unfold mp4WidthStep
  split
  · split <;> rfl
  · rfl

/-- The MP4 bitrate step only writes the MP4 bitrate. -/
theorem mp4BitrateStep_ok_elim (x y : Opts) (h : mp4BitrateStep x = .ok y) :
    ∃ r, y = { x with mp4_bitrate := r } := by
  unfold mp4BitrateStep at h
  by_cases hf : optFalsyF x.mp4_bitrate
  · rw [if_pos hf] at h
    cases hidx : x.video_widths.findIdx? (fun w => decide (w = x.mp4_width.getD 0)) with
    | some i =>
      rw [hidx] at h
      injection h with h
      exact ⟨_, h.symm⟩
    | none =>
      rw [hidx] at h
      cases hbs : x.video_bitrates with
      | nil => rw [hbs] at h; exact absurd h (by simp)
      | cons b bs =>
        rw [hbs] at h
        injection h with h
        exact ⟨_, h.symm⟩
  · rw [if_neg hf] at h
    injection h with h
    exact ⟨x.mp4_bitrate, by rw [← h]⟩

/-- Unfolding of a successful `fix_options` run into its five fallible
stages. -/
theorem fix_options_ok_elim (o : Opts) (t : Tech) (o' : Opts)
    (h : fix_options o t = .ok o') :
    ∃ oa ob oc od,
      alignStep (audioWidthStep (prefixStep o)) = .ok oa ∧
      parseRatioStep (zeroStep oa) = .ok ob ∧
      namesStep ob = .ok oc ∧
      pruneStep (factorStep oc) t = .ok od ∧
      mp4BitrateStep (mp4WidthStep (posterStep od t) t) = .ok o' := by
  unfold fix_options at h
  cases ha : alignStep (audioWidthStep (prefixStep o)) with
  | error e => rw [ha] at h; exact absurd h (by simp [Bind.bind, Except.bind])
  | ok oa =>
    rw [ha] at h
    simp only [Bind.bind, Except.bind] at h
    cases hb : parseRatioStep (zeroStep oa) with
    | error e => rw [hb] at h; exact absurd h (by simp)
    | ok ob =>
      rw [hb] at h
      simp only at h
      cases hcn : namesStep ob with
      | error e => rw [hcn] at h; exact absurd h (by simp)
      | ok oc =>
        rw [hcn] at h
        simp only at h
        cases hd : pruneStep (factorStep oc) t with
        | error e => rw [hd] at h; exact absurd h (by simp)
        | ok od =>
          rw [hd] at h
          simp only at h
          exact ⟨oa, ob, oc, od, by simp [ha], by simp [hb], by simp [hcn],
            by simp [hd], h⟩

/-- Zipping back the two projections of a pair list gives the list itself. -/
theorem zipFstSnd {α β : Type} :
    ∀ (l : List (α × β)), (l.map Prod.fst).zip (l.map Prod.snd) = l := by
  intro l
  induction l with
  | nil => rfl
  | cons p rest ih =>
    cases p
    simp [ih]

/-- Filtering a zip by a test on the first component and projecting the
first components is filtering the first list. -/
theorem filter_zip_fst {α : Type} (q : ℤ → Bool) :
    ∀ (ws : List ℤ) (v : List α), v.length = ws.length →
      ((ws.zip v).filter (fun p => q p.1)).map Prod.fst = ws.filter q := by
  intro ws
  induction ws with
  | nil => intro v _; simp
  | cons a ws' ih =>
    intro v hv
    cases v with
    | nil => simp at hv
    | cons b v' =>
      simp only [List.zip_cons_cons, List.filter_cons]
      by_cases hq : q a = true
      · simp only [hq]
        simp [ih v' (by simpa using hv)]
      · simp only [Bool.not_eq_true] at hq
        simp [hq, ih v' (by simpa using hv)]

/-- Same statement for the filtered companion lengths. -/
theorem filter_zip_length {α : Type} (q : ℤ → Bool) :
    ∀ (ws : List ℤ) (v : List α), v.length = ws.length →
      ((ws.zip v).filter (fun p => q p.1)).length = (ws.filter q).length := by
  intro ws v hv
  rw [← filter_zip_fst q ws v hv, List.length_map]

/-- The zero-bitrate fix makes every pair of the width/bitrate zip satisfy
the invariant width = 0 implies bitrate = 0. -/
theorem zbmem_zeroFix :
    ∀ (ws bs : List ℤ),
      ∀ p ∈ ws.zip (List.zipWith (fun w b => if w = 0 then (0 : ℤ) else b) ws bs),
        p.1 = 0 → p.2 = 0 := by
  intro ws
  induction ws with
  | nil => intro bs p hp; simp at hp
  | cons a ws' ih =>
    intro bs p hp
    cases bs with
    | nil => simp at hp
    | cons b bs' =>
      simp only [List.zipWith_cons_cons, List.zip_cons_cons, List.mem_cons] at hp
      rcases hp with hp | hp
      · intro h1
        rw [hp]
        dsimp only
        rw [hp] at h1
        dsimp only at h1
        rw [if_pos h1]
      · exact ih bs' p hp

/-- Mapping a zero-preserving function over the bitrates preserves the
invariant. -/
theorem zbmem_map (g : ℤ → ℤ) (hg : g 0 = 0) :
    ∀ (ws bs : List ℤ), (∀ p ∈ ws.zip bs, p.1 = 0 → p.2 = 0) →
      ∀ p ∈ ws.zip (bs.map g), p.1 = 0 → p.2 = 0 := by
  intro ws
  induction ws with
  | nil => intro bs _ p hp; simp at hp
  | cons a ws' ih =>
    intro bs hin p hp
    cases bs with
    | nil => simp at hp
    | cons b bs' =>
      simp only [List.map_cons, List.zip_cons_cons, List.mem_cons] at hp
      rcases hp with hp | hp
      · intro h1
        rw [hp] at h1 ⊢
        dsimp only at h1 ⊢
        have hb : b = 0 := hin (a, b) (by simp) h1
        rw [hb, hg]
      · exact ih bs' (fun r hr => hin r (List.mem_cons_of_mem _ hr)) p hp

/-- Pruning preserves the invariant: the surviving pairs are a sublist of
the original zip. -/
theorem zbmem_pruned (w h : ℤ) (ws bs : List ℤ) (hlen : bs.length = ws.length)
    (hin : ∀ p ∈ ws.zip bs, p.1 = 0 → p.2 = 0) :
    ∀ p ∈ (pruneKeep w h ws).zip (pruneKeepPaired w h ws bs), p.1 = 0 → p.2 = 0 := by
  intro p hp
  unfold pruneKeep pruneKeepPaired at hp
  rw [← filter_zip_fst (fun x => !prunePredB w h x) ws bs hlen, zipFstSnd] at hp
  exact hin p (List.mem_filter.mp hp).1

/-- Membership form to index form of the invariant. -/
theorem zbmem_to_index (ws bs : List ℤ) (hlen : bs.length = ws.length)
    (hmem : ∀ p ∈ ws.zip bs, p.1 = 0 → p.2 = 0) :
    ∀ i : ℕ, ws[i]? = some 0 → bs[i]? = some 0 := by
  intro i hi
  rcases List.getElem?_eq_some.mp hi with ⟨hil, hv⟩
  have hib : i < bs.length := by omega
  have hiz : i < (ws.zip bs).length := by rw [List.length_zip]; omega
  have hpm : (ws[i], bs[i]) ∈ ws.zip bs := by
    have := List.getElem_mem hiz
    rwa [List.getElem_zip] at this
  have := hmem (ws[i], bs[i]) hpm (by simpa using hv)
  rw [List.getElem?_eq_some]
  exact ⟨hib, this⟩

/-- A zero bitrate scaled by the bitrate factor stays zero. -/
theorem pyInt_factor_zero (f : PyF) :
    pyInt (PyF.mul (PyF.ofInt 0) f) = 0 := by
  unfold pyInt PyF.mul PyF.ofInt PyF.norm
  split <;> simp [Int.zero_tdiv]

/-- A successful pruning step is the pruning loop. -/
theorem pruneStep_ok_elim (x : Opts) (t : Tech) (od : Opts)
    (h : pruneStep x t = .ok od) :
    od = pruneAll t.width t.height x.video_widths.length x := by
  unfold pruneStep at h
  by_cases hz : t.width = 0 ∧ x.video_widths.any (fun v => decide (0 < v)) = true
  · rw [if_pos hz] at h; exact absurd h (by simp)
  · rw [if_neg hz] at h
    injection h with h
    exact h.symm

/-- The pruning loop preserves the length and zero-bitrate facts. -/
theorem pruneAll_facts (x : Opts) (t : Tech)
    (hbl : x.video_bitrates.length = x.video_widths.length)
    (hcl : x.video_codecs.length = x.video_widths.length)
    (hpl : x.video_profiles.length = x.video_widths.length)
    (hnl : x.video_names.length = x.video_widths.length)
    (hprel : x.video_presets = [] ∨ x.video_presets.length = x.video_widths.length)
    (hzb : ∀ p ∈ x.video_widths.zip x.video_bitrates, p.1 = 0 → p.2 = 0) :
    ((pruneAll t.width t.height x.video_widths.length x).video_bitrates.length =
       (pruneAll t.width t.height x.video_widths.length x).video_widths.length ∧
     (pruneAll t.width t.height x.video_widths.length x).video_codecs.length =
       (pruneAll t.width t.height x.video_widths.length x).video_widths.length ∧
     (pruneAll t.width t.height x.video_widths.length x).video_profiles.length =
       (pruneAll t.width t.height x.video_widths.length x).video_widths.length ∧
     (pruneAll t.width t.height x.video_widths.length x).video_names.length =
       (pruneAll t.width t.height x.video_widths.length x).video_widths.length ∧
     ((pruneAll t.width t.height x.video_widths.length x).video_presets = [] ∨
      (pruneAll t.width t.height x.video_widths.length x).video_presets.length =
        (pruneAll t.width t.height x.video_widths.length x).video_widths.length)) ∧
    (∀ p ∈ (pruneAll t.width t.height x.video_widths.length x).video_widths.zip
        (pruneAll t.width t.height x.video_widths.length x).video_bitrates,
      p.1 = 0 → p.2 = 0) := by
  rw [pruneAll_eq]
  rw [prunePair_full t.width t.height x.video_widths x.video_bitrates hbl,
      prunePair_full t.width t.height x.video_widths x.video_codecs hcl,
      prunePair_full t.width t.height x.video_widths x.video_profiles hpl,
      prunePair_full t.width t.height x.video_widths x.video_names hnl]
  dsimp only
  have hkb := filter_zip_length (fun v => !prunePredB t.width t.height v)
    x.video_widths x.video_bitrates hbl
  have hkc := filter_zip_length (fun v => !prunePredB t.width t.height v)
    x.video_widths x.video_codecs hcl
  have hkp := filter_zip_length (fun v => !prunePredB t.width t.height v)
    x.video_widths x.video_profiles hpl
  have hkn := filter_zip_length (fun v => !prunePredB t.width t.height v)
    x.video_widths x.video_names hnl
  refine ⟨⟨?_, ?_, ?_, ?_, ?_⟩, zbmem_pruned _ _ _ _ hbl hzb⟩
  · unfold pruneKeep pruneKeepPaired
    rw [List.length_map]
    exact hkb
  · unfold pruneKeep pruneKeepPaired
    rw [List.length_map]
    exact hkc
  · unfold pruneKeep pruneKeepPaired
    rw [List.length_map]
    exact hkp
  · unfold pruneKeep pruneKeepPaired
    rw [List.length_map]
    exact hkn
  · rcases hprel with hpe | hpl2
    · left
      rw [hpe, prunePair_nil]
    · by_cases hpe : x.video_presets = []
      · left
        rw [hpe, prunePair_nil]
      · right
        rw [prunePair_full t.width t.height x.video_widths x.video_presets hpl2]
        unfold pruneKeep pruneKeepPaired
        rw [List.length_map]
        exact filter_zip_length (fun v => !prunePredB t.width t.height v)
          x.video_widths x.video_presets hpl2

/-- Structural facts of every successful normalization run: all vectors end
with the length of the final width vector (empty presets stay empty), and a
zero width forces a zero bitrate at the same position. -/
theorem fix_options_ok_facts (o : Opts) (t : Tech) (o' : Opts)
    (h : fix_options o t = .ok o') :
    (o'.video_bitrates.length = o'.video_widths.length ∧
     o'.video_codecs.length = o'.video_widths.length ∧
     o'.video_profiles.length = o'.video_widths.length ∧
     o'.video_names.length = o'.video_widths.length ∧
     (o'.video_presets = [] ∨ o'.video_presets.length = o'.video_widths.length)) ∧
    (∀ p ∈ o'.video_widths.zip o'.video_bitrates, p.1 = 0 → p.2 = 0) := by
  obtain ⟨oa, ob, oc, od, ha, hb, hcn, hd, he⟩ := fix_options_ok_elim o t o' h
  have ea := alignStep_ok_elim _ _ ha
  subst ea
  obtain ⟨q, eb⟩ := parseRatioStep_ok_elim _ _ hb
  subst eb
  have ed := pruneStep_ok_elim _ _ _ hd
  subst ed
  obtain ⟨r, ee⟩ := mp4BitrateStep_ok_elim _ _ he
  subst ee
  have hv1 := posterStep_vecs (pruneAll t.width t.height
    (factorStep oc).video_widths.length (factorStep oc)) t
  have hv2 := mp4WidthStep_vecs (posterStep (pruneAll t.width t.height
    (factorStep oc).video_widths.length (factorStep oc)) t) t
  have hvecs : vecs (mp4WidthStep (posterStep (pruneAll t.width t.height
      (factorStep oc).video_widths.length (factorStep oc)) t) t) =
      vecs (pruneAll t.width t.height (factorStep oc).video_widths.length
        (factorStep oc)) := by
    rw [hv2, hv1]
  unfold vecs at hvecs
  have hW := congrArg (fun z :
    List ℤ × List ℤ × List String × List String × List String × List String => z.1) hvecs
  have hB := congrArg (fun z :
    List ℤ × List ℤ × List String × List String × List String × List String => z.2.1) hvecs
  have hC := congrArg (fun z :
    List ℤ × List ℤ × List String × List String × List String × List String => z.2.2.1) hvecs
  have hP := congrArg (fun z :
    List ℤ × List ℤ × List String × List String × List String × List String => z.2.2.2.1) hvecs
  have hN := congrArg (fun z :
    List ℤ × List ℤ × List String × List String × List String × List String => z.2.2.2.2.1) hvecs
  have hPre := congrArg (fun z :
    List ℤ × List ℤ × List String × List String × List String × List String => z.2.2.2.2.2) hvecs
  dsimp only at hW hB hC hP hN hPre ⊢
  rw [hW, hB, hC, hP, hN, hPre]
  rcases namesStep_ok_elim _ _ hcn with ec | ⟨hlen2, ec⟩
  · subst ec
    refine pruneAll_facts _ t ?_ ?_ ?_ ?_ ?_ ?_
    · dsimp only [factorStep, zeroStep]
      rw [List.length_map, List.length_zipWith, truncOrRepeatLast_length]
      exact min_self _
    · dsimp only [factorStep, zeroStep]
      rw [truncOrRepeatLast_length]
    · dsimp only [factorStep, zeroStep]
      rw [truncOrRepeatLast_length]
    · dsimp only [factorStep, zeroStep]
      rw [List.length_append, List.length_take, List.length_drop]
      dsimp only [synthNames]
      rw [List.length_zipWith, List.length_zipWith, truncOrRepeatLast_length]
      have hmin : ∀ m : ℕ, m ⊓ m = m := fun m => min_self m
      rw [hmin, hmin]
      omega
    · dsimp only [factorStep, zeroStep]
      by_cases hc0 : (audioWidthStep (prefixStep o)).video_presets.take
          (audioWidthStep (prefixStep o)).video_widths.length = []
      · rw [if_pos hc0]
        exact Or.inl rfl
      · rw [if_neg hc0]
        exact Or.inr (truncOrRepeatLast_length _ _ _)
    · dsimp only [factorStep, zeroStep]
      exact zbmem_map _ (pyInt_factor_zero _) _ _ (zbmem_zeroFix _ _)
  · subst ec
    refine pruneAll_facts _ t ?_ ?_ ?_ ?_ ?_ ?_
    · dsimp only [factorStep, zeroStep]
      rw [List.length_map, List.length_zipWith, truncOrRepeatLast_length]
      exact min_self _
    · dsimp only [factorStep, zeroStep]
      rw [truncOrRepeatLast_length]
    · dsimp only [factorStep, zeroStep]
      rw [truncOrRepeatLast_length]
    · dsimp only [factorStep, zeroStep] at hlen2 ⊢
      rw [List.length_take] at hlen2 ⊢
      omega
    · dsimp only [factorStep, zeroStep]
      by_cases hc0 : (audioWidthStep (prefixStep o)).video_presets.take
          (audioWidthStep (prefixStep o)).video_widths.length = []
      · rw [if_pos hc0]
        exact Or.inl rfl
      · rw [if_neg hc0]
        exact Or.inr (truncOrRepeatLast_length _ _ _)
    · dsimp only [factorStep, zeroStep]
      exact zbmem_map _ (pyInt_factor_zero _) _ _ (zbmem_zeroFix _ _)

/-- C6: in every successfully normalized plan, a rendition of width 0 has
bitrate 0, whatever the input bitrate vector was. -/
theorem width_zero_bitrate_zero (o : Opts) (t : Tech) (o' : Opts)
    (h : fix_options o t = .ok o') :
    ∀ i : ℕ, o'.video_widths[i]? = some 0 → o'.video_bitrates[i]? = some 0 := by
  obtain ⟨⟨hbl, _⟩, hzb⟩ := fix_options_ok_facts o t o' h
  exact zbmem_to_index _ _ hbl hzb

theorem width_zero_bitrate_zero_witness :
    fix_options exC6 tech1080 = .ok exC6norm ∧
    exC6norm.video_widths[1]? = some 0 ∧ exC6norm.video_bitrates[1]? = some 0 :=
  ⟨by decide, by decide,
   width_zero_bitrate_zero exC6 tech1080 exC6norm (by decide) 1 (by decide)⟩

/-- C5: after normalization every per-rendition vector has the length of the
width vector (empty presets excepted); the alignment step truncates and
repeats the last element, truncating names without extension; the names step
extends the names only from the synthesized list. -/
theorem vector_alignment_spec :
    (∀ (o : Opts) (t : Tech) (o' : Opts), fix_options o t = .ok o' →
       o'.video_bitrates.length = o'.video_widths.length ∧
       o'.video_codecs.length = o'.video_widths.length ∧
       o'.video_profiles.length = o'.video_widths.length ∧
       o'.video_names.length = o'.video_widths.length ∧
       (o'.video_presets = [] ∨
        o'.video_presets.length = o'.video_widths.length)) ∧
    (∀ (o oa : Opts), alignStep o = .ok oa →
       oa = { o with
         video_bitrates := truncOrRepeatLast o.video_widths.length 0 o.video_bitrates,
         video_codecs := truncOrRepeatLast o.video_widths.length "" o.video_codecs,
         video_profiles := truncOrRepeatLast o.video_widths.length "" o.video_profiles,
         video_names := o.video_names.take o.video_widths.length,
         video_presets :=
           (if o.video_presets.take o.video_widths.length = [] then []
            else truncOrRepeatLast o.video_widths.length "" o.video_presets) }) ∧
    (∀ (x y : Opts), namesStep x = .ok y →
       y = { x with video_names :=
               x.video_names ++ (synthNames x).drop x.video_names.length } ∨
         (x.video_widths.length ≤ x.video_names.length ∧ y = x)) :=
  ⟨fun o t o' h => (fix_options_ok_facts o t o' h).1,
   alignStep_ok_elim, namesStep_ok_elim⟩

theorem vector_alignment_spec_witness :
    fix_options exBase tech1080 = .ok exNorm ∧
    (exNorm.video_bitrates.length = exNorm.video_widths.length ∧
     exNorm.video_codecs.length = exNorm.video_widths.length ∧
     exNorm.video_profiles.length = exNorm.video_widths.length ∧
     exNorm.video_names.length = exNorm.video_widths.length ∧
     (exNorm.video_presets = [] ∨
      exNorm.video_presets.length = exNorm.video_widths.length)) :=
  ⟨by decide, vector_alignment_spec.1 exBase tech1080 exNorm (by decide)⟩

/-- An alignVec run on a vector that already has the canonical length is the
identity. -/
theorem alignVec_self {α : Type} (L : ℕ) (u : List α) (hu : u.length = L) :
    alignVec L u = .ok u := by
  unfold alignVec
  have htk : u.take L = u := List.take_of_length_le (by omega)
  rw [htk, if_pos (by omega)]

/-- An options record whose vectors already have the canonical length is a
fixed point of the alignment step. -/
theorem alignStep_fixed (u : Opts)
    (hb : u.video_bitrates.length = u.video_widths.length)
    (hc : u.video_codecs.length = u.video_widths.length)
    (hp : u.video_profiles.length = u.video_widths.length)
    (hn : u.video_names.length ≤ u.video_widths.length)
    (hpre : u.video_presets = [] ∨ u.video_presets.length = u.video_widths.length) :
    alignStep u = .ok u := by
  have hns : u.video_names.take u.video_widths.length = u.video_names :=
    List.take_of_length_le hn
  have hif : (if u.video_presets.take u.video_widths.length = [] then
        pure (u.video_presets.take u.video_widths.length)
      else alignVec u.video_widths.length u.video_presets) =
      Except.ok u.video_presets := by
    rcases hpre with hpe | hpl
    · rw [hpe, List.take_nil, if_pos rfl]
      rfl
    · by_cases hL0 : u.video_widths.length = 0
      · have hpe : u.video_presets = [] := List.eq_nil_of_length_eq_zero (by omega)
        rw [hpe, List.take_nil, if_pos rfl]
        rfl
      · have hne : u.video_presets ≠ [] := by
          intro he
          rw [he] at hpl
          simp at hpl
          omega
        have htk : u.video_presets.take u.video_widths.length = u.video_presets :=
          List.take_of_length_le (by omega)
        rw [htk, if_neg hne]
        exact alignVec_self _ _ hpl
  unfold alignStep
  rw [alignVec_self _ _ hb, alignVec_self _ _ hc, alignVec_self _ _ hp, hif]
  simp only [Bind.bind, Except.bind]
  rw [hns]
  rfl

/-- C3 (amended): the vector alignment step is idempotent. -/
theorem alignStep_idempotent (o oa : Opts) (h : alignStep o = .ok oa) :
    alignStep oa = .ok oa := by
  have e := alignStep_ok_elim _ _ h
  subst e
  apply alignStep_fixed
  · exact truncOrRepeatLast_length _ _ _
  · exact truncOrRepeatLast_length _ _ _
  · exact truncOrRepeatLast_length _ _ _
  · dsimp only
    rw [List.length_take]
    exact min_le_left _ _
  · dsimp only
    by_cases hc0 : o.video_presets.take o.video_widths.length = []
    · rw [if_pos hc0]
      exact Or.inl rfl
    · rw [if_neg hc0]
      exact Or.inr (truncOrRepeatLast_length _ _ _)

theorem alignStep_idempotent_witness : alignStep exPrune = .ok exPrune :=
  alignStep_idempotent exPrune exPrune (by decide)

/-- C3 (counterexample): running the whole normalization twice is not the
identity on normalized plans; the second run fails on the already numeric
ratio. -/
theorem fix_options_not_idempotent :
    fix_options exBase tech1080 = .ok exNorm ∧
    fix_options exNorm tech1080 ≠ .ok exNorm := ⟨by decide, by decide⟩

/-- C1 (behavior at the failing input): with exactly one requested width at
or below both configured maxima, the derived poster and MP4 widths are the
full source width 1920 rather than that width (the `max` star-unpacking of a
one-element generator raises TypeError and takes the none-qualifies
fallback). -/
theorem poster_width_single_qualifier :
    exC1.video_widths.filter (fun w => decide (w ≤ exC1.poster_max_width)) = [640] ∧
    exC1.video_widths.filter (fun w => decide (w ≤ exC1.mp4_max_width)) = [640] ∧
    (fix_options exC1 tech1080).map (fun o => (o.poster_width, o.mp4_width)) =
      .ok (some 1920, some 1920) := ⟨by decide, by decide, by decide⟩

set_option maxRecDepth 8000 in
/-- C9: a single 1280-wide rendition at 2500 kbit/s with no audio and the
defaulted single empty prefix serializes to exactly one stream-variant line,
with BANDWIDTH=2500000 and no AUDIO attribute. -/
theorem master_single_rendition :
    ((fix_options exC9 tech1080).bind fun o =>
      masterPlaylist o tech1080 false ⟨25, 1⟩ dumpsNone) = .ok exC9out ∧
    (splitLinesStr exC9out).filter (fun l => startsWithStr l "#EXT-X-STREAM-INF") =
      [exC9line] ∧
    hasSubstrStr exC9line "BANDWIDTH=2500000" = true ∧
    hasSubstrStr exC9line "AUDIO" = false := by
  refine ⟨by decide, by decide, by decide, by decide⟩

set_option maxRecDepth 8000 in
/-- C8 (counterexample): when extraction fails only for the second
rendition, the manifest still carries the CODECS attribute of the first,
already serialized entry. -/
theorem master_codecs_kept_before_failure :
    ((fix_options exC8 tech1080).bind fun o =>
      masterPlaylist o tech1080 false ⟨25, 1⟩ exC8dumps) = .ok exC8out ∧
    codecAttempt exC8dumps 1 = .error "FileNotFoundError" ∧
    hasSubstrStr exC8out "CODECS" = true := by
  refine ⟨by decide, by decide, by decide⟩

/-- The skip test of the master playlist loop, as a Boolean equation. -/
theorem renditionKept_eq_false_iff (o : Opts) (k : ℕ) :
    renditionKept o k = false ↔
      (o.audio_only = false ∧ o.video_bitrates.getD k 0 = 0) := by
  unfold renditionKept
  cases h1 : o.audio_only <;> simp [h1]

/-- With the suppression flag set, every remaining entry is serialized with
no codec identifier. -/
theorem masterEntries_noCodecs (o : Opts) (aP : Bool) (fps : PyF)
    (pls : List (String × String)) (dumps : ℕ → Option (List String)) :
    ∀ idxs : List ℕ,
      masterEntries o aP fps pls dumps idxs true =
        (idxs.filter (renditionKept o)).map
          (fun i => entryBlock o aP fps pls i none) := by
  intro idxs
  induction idxs with
  | nil => rfl
  | cons k rest ih =>
    rw [masterEntries]
    by_cases hk : o.audio_only = false ∧ o.video_bitrates.getD k 0 = 0
    · rw [if_pos hk]
      have hkf : renditionKept o k = false := (renditionKept_eq_false_iff o k).mpr hk
      rw [List.filter_cons, hkf]
      simpa using ih
    · rw [if_neg hk]
      have hkeep : renditionKept o k = true := by
        cases hkk : renditionKept o k with
        | false => exact absurd ((renditionKept_eq_false_iff o k).mp hkk) hk
        | true => rfl
      dsimp only
      rw [List.filter_cons, hkeep]
      simpa using ih

/-- C8 (amended): a failed codec extraction suppresses the CODECS attribute
of the failing entry and of every later entry of the run, and serialization
still completes, producing one block per kept rendition. -/
theorem codecs_disabled_from_failure (o : Opts) (aP : Bool) (fps : PyF)
    (pls : List (String × String)) (dumps : ℕ → Option (List String))
    (k : ℕ) (rest : List ℕ) (e : String)
    (hadd : o.hls_add_codecs = true)
    (hkeep : renditionKept o k = true)
    (hfail : codecAttempt dumps k = .error e) :
    masterEntries o aP fps pls dumps (k :: rest) false =
      entryBlock o aP fps pls k none ::
        (rest.filter (renditionKept o)).map
          (fun i => entryBlock o aP fps pls i none) := by
  rw [masterEntries]
  have hk : ¬ (o.audio_only = false ∧ o.video_bitrates.getD k 0 = 0) := by
    intro hc
    rw [(renditionKept_eq_false_iff o k).mpr hc] at hkeep
    exact absurd hkeep (by simp)
  rw [if_neg hk]
  dsimp only
  rw [if_pos ⟨rfl, hadd⟩, hfail]
  dsimp only
  rw [masterEntries_noCodecs]

theorem codecs_disabled_from_failure_witness :
    masterEntries exC9 false ⟨25, 1⟩ [("720p_0.m3u8", "1280x720")] dumpsNone [0] false =
      entryBlock exC9 false ⟨25, 1⟩ [("720p_0.m3u8", "1280x720")] 0 none ::
        (([] : List ℕ).filter (renditionKept exC9)).map
          (fun i => entryBlock exC9 false ⟨25, 1⟩ [("720p_0.m3u8", "1280x720")] i none) :=
  codecs_disabled_from_failure exC9 false ⟨25, 1⟩ [("720p_0.m3u8", "1280x720")]
    dumpsNone 0 [] "FileNotFoundError" (by decide) (by decide) (by decide)

/-- Lines without the avcC marker contribute no avc1 identifier. -/
theorem avc1Blocks_nil (ls : List String)
    (hml : ∀ l ∈ ls, hasSubstrStr l avcCMarker = false) :
    avc1Blocks ls = .ok [] := by
  induction ls with
  | nil => rfl
  | cons l rest ih =>
    have h0 := hml l (List.mem_cons_self l rest)
    rw [avc1Blocks, h0]
    simp only [Bool.false_eq_true, if_false]
    exact ih (fun x hx => hml x (List.mem_cons_of_mem _ hx))

/-- An atom dump with exactly one avcC header line decodes to the scanned
triple, or fails when an attribute is missing from the scope. -/
theorem avc1Blocks_single (pre : List String) (hdr : String) (rest : List String)
    (hpre : ∀ l ∈ pre, hasSubstrStr l avcCMarker = false)
    (hhdr : hasSubstrStr hdr avcCMarker = true)
    (hrest : ∀ l ∈ rest, hasSubstrStr l avcCMarker = false) :
    avc1Blocks (pre ++ hdr :: rest) =
      match avc1Scan (scopeAfter hdr rest) with
      | (some p, some c, some lv) => .ok ["avc1." ++ hex2 p ++ hex2 c ++ hex2 lv]
      | _ => .error "unable to decode AVC1 codec" := by
  induction pre with
  | nil =>
    rw [List.nil_append, avc1Blocks, hhdr]
    simp only [if_true]
    rcases hscan : avc1Scan (scopeAfter hdr rest) with ⟨po, co, lo⟩
    rcases po with _ | p
    · rfl
    · rcases co with _ | c
      · rfl
      · rcases lo with _ | lv
        · rfl
        · dsimp only
          rw [avc1Blocks_nil rest hrest]
          rfl
  | cons l pre' ih =>
    rw [List.cons_append, avc1Blocks, hpre l (List.mem_cons_self l pre')]
    simp only [Bool.false_eq_true, if_false]
    exact ih (fun x hx => hpre x (List.mem_cons_of_mem _ hx))

/-- C7: when the only sample-description codec of a dump is avc1 and the
dump holds exactly one avcC header, the decoder yields `avc1.` plus the
three scanned attributes as two lowercase hex digit groups, and fails with
the AVC1 decode error when any of the three is missing in the scope. -/
theorem extract_codecs_avc1_spec (pre : List String) (hdr : String) (rest : List String)
    (hcodec : dedupKeepFirst
        ((pre ++ hdr :: rest).filterMap (fun l => matchCodec l.data)) = ["avc1"])
    (hpre : ∀ l ∈ pre, hasSubstrStr l avcCMarker = false)
    (hhdr : hasSubstrStr hdr avcCMarker = true)
    (hrest : ∀ l ∈ rest, hasSubstrStr l avcCMarker = false) :
    (∀ p c lv, avc1Scan (scopeAfter hdr rest) = (some p, some c, some lv) →
       extract_codecs (pre ++ hdr :: rest) =
         .ok ("avc1." ++ hex2 p ++ hex2 c ++ hex2 lv)) ∧
    (((avc1Scan (scopeAfter hdr rest)).1 = none ∨
      (avc1Scan (scopeAfter hdr rest)).2.1 = none ∨
      (avc1Scan (scopeAfter hdr rest)).2.2 = none) →
       extract_codecs (pre ++ hdr :: rest) =
         .error "unable to decode AVC1 codec") := by
  have hblocks := avc1Blocks_single pre hdr rest hpre hhdr hrest
  constructor
  · intro p c lv hscan
    rw [hscan] at hblocks
    dsimp only at hblocks
    unfold extract_codecs
    rw [hcodec]
    unfold processCodecs processCodecs processCodec
    dsimp only
    rw [if_pos rfl, hblocks]
    rfl
  · intro hn
    have herr : avc1Blocks (pre ++ hdr :: rest) =
        .error "unable to decode AVC1 codec" := by
      rw [hblocks]
      rcases hscan : avc1Scan (scopeAfter hdr rest) with ⟨po, co, lo⟩
      rw [hscan] at hn
      rcases po with _ | p
      · rfl
      · rcases co with _ | c
        · rfl
        · rcases lo with _ | lv
          · rfl
          · rcases hn with hn | hn | hn <;> simp at hn
    unfold extract_codecs
    rw [hcodec]
    unfold processCodecs processCodecs processCodec
    dsimp only
    rw [if_pos rfl, herr]
    rfl

theorem extract_codecs_avc1_witness :
    extract_codecs exDumpAvc1 = .ok "avc1.64001f" ∧
    extract_codecs exDumpAvc1Bad = .error "unable to decode AVC1 codec" := by
  constructor
  · exact (extract_codecs_avc1_spec [exDumpAvc1.getD 0 ""] (exDumpAvc1.getD 1 "")
      (exDumpAvc1.drop 2) (by decide) (by decide) (by decide) (by decide)).1
      100 0 31 (by decide)
  · exact (extract_codecs_avc1_spec [exDumpAvc1Bad.getD 0 ""] (exDumpAvc1Bad.getD 1 "")
      (exDumpAvc1Bad.drop 2) (by decide) (by decide) (by decide) (by decide)).2
      (Or.inr (Or.inr (by decide)))

theorem contained_in_spec_witness :
    (0:ℤ) < 1920 ∧ (0:ℤ) < 1080 ∧ (0:ℤ) < 854 ∧ (0:ℤ) < 480 ∧
    ((contained_in ((1920:ℤ), (1080:ℤ)) ((854:ℤ), (480:ℤ))).1 ≤ 854 ∧
     (contained_in ((1920:ℤ), (1080:ℤ)) ((854:ℤ), (480:ℤ))).2 ≤ 480 ∧
     (contained_in ((1920:ℤ), (1080:ℤ)) ((854:ℤ), (480:ℤ))).1 % 2 = 0 ∧
     (contained_in ((1920:ℤ), (1080:ℤ)) ((854:ℤ), (480:ℤ))).2 % 2 = 0 ∧
     (∀ a b : ℤ, a ≤ 854 → b ≤ 480 → a % 2 = 0 → b % 2 = 0 → a * 1080 = b * 1920 →
       a ≤ (contained_in ((1920:ℤ), (1080:ℤ)) ((854:ℤ), (480:ℤ))).1 ∧
       b ≤ (contained_in ((1920:ℤ), (1080:ℤ)) ((854:ℤ), (480:ℤ))).2) ∧
     (contained_in ((1920:ℤ), (1080:ℤ)) ((854:ℤ), (480:ℤ))).1 * 1080 <
       ((contained_in ((1920:ℤ), (1080:ℤ)) ((854:ℤ), (480:ℤ))).2 + 2) * 1920 ∧
     (contained_in ((1920:ℤ), (1080:ℤ)) ((854:ℤ), (480:ℤ))).2 * 1920 <
       ((contained_in ((1920:ℤ), (1080:ℤ)) ((854:ℤ), (480:ℤ))).1 + 2) * 1080) :=
  ⟨by decide, by decide, by decide, by decide,
   contained_in_spec 1920 1080 854 480 (by decide) (by decide) (by decide) (by decide)⟩
